import Mathlib

/-!
Verification of the configuration-resolution engine in
core/dbt/parser/source_config.py (class SourceConfig).

The Python code operates on nested string-keyed mappings whose values are
YAML-style data (None, booleans, numbers, strings, lists, mappings).  We embed
such values as the inductive type Value and Python dicts as insertion-ordered
association lists with unique keys (type Dict).  Dict assignment d[k] = v
updates the existing entry in place (keeping its position) or appends a new
entry at the end, exactly like a Python dict.

Error behaviour is embedded explicitly: raise_compiler_error becomes a cerr
result carrying the offending field name (and, where observable, the state at
the moment of the raise), while uncaught Python exceptions (TypeError,
AttributeError, KeyError) become perr.
-/

/-- Embedding of the Python/YAML values that flow through SourceConfig:
None, bool, int, str, list and dict (a dict is an insertion-ordered list of
string-keyed entries). -/
inductive Value where
  | vnone : Value
  | vbool : Bool → Value
  | vint : Int → Value
  | vstr : String → Value
  | vlist : List Value → Value
  | vdict : List (String × Value) → Value

/-- A Python dict with string keys, as an insertion-ordered association list. -/
abbrev Dict := List (String × Value)

mutual

/-- Python structural equality (==) on embedded values. -/
def Value.beq : Value → Value → Bool
  | .vnone, .vnone => true
  | .vbool a, .vbool b => a == b
  | .vint a, .vint b => a == b
  | .vstr a, .vstr b => a == b
  | .vlist xs, .vlist ys => Value.beqL xs ys
  | .vdict xs, .vdict ys => Value.beqD xs ys
  | _, _ => false

/-- Elementwise equality of embedded lists. -/
def Value.beqL : List Value → List Value → Bool
  | [], [] => true
  | x :: xs, y :: ys => Value.beq x y && Value.beqL xs ys
  | _, _ => false

/-- Entrywise equality of embedded dicts. -/
def Value.beqD : List (String × Value) → List (String × Value) → Bool
  | [], [] => true
  | (k1, v1) :: xs, (k2, v2) :: ys => k1 == k2 && Value.beq v1 v2 && Value.beqD xs ys
  | _, _ => false

end

instance : BEq Value := ⟨Value.beq⟩

/-- Python dict read d.get(key): the value of the first (hence, for a real
dict, the only) entry with the given key. -/
def alookup : Dict → String → Option Value
  | [], _ => none
  | (k, v) :: rest, key => if k = key then some v else alookup rest key

/-- Python dict write d[key] = val: overwrite the existing entry in place,
else append a new entry at the end. -/
def aset : Dict → String → Value → Dict
  | [], key, val => [(key, val)]
  | (k, v) :: rest, key, val =>
    if k = key then (k, val) :: rest else (k, v) :: aset rest key val

/-- Python dict.update(src): assign every entry of src, in order, into d. -/
def aupdate (d : Dict) : Dict → Dict
  | [] => d
  | (k, v) :: rest => aupdate (aset d k v) rest

/-- source_config.py line 9: SourceConfig.AppendListFields. -/
def AppendListFields : List String := ["pre-hook", "post-hook", "tags"]

/-- source_config.py line 10: SourceConfig.ExtendDictFields. -/
def ExtendDictFields : List String := ["vars", "column_types", "quoting", "persist_docs"]

/-- source_config.py lines 11-21: SourceConfig.ClobberFields. -/
def ClobberFields : List String :=
  ["alias", "schema", "enabled", "materialized", "unique_key", "database",
   "severity", "docs", "incremental_strategy"]

/-- source_config.py line 23: ConfigKeys = AppendListFields | ExtendDictFields
| ClobberFields. -/
def ConfigKeys : List String := AppendListFields ++ ExtendDictFields ++ ClobberFields

/-- source_config.py line 127: config_keys = ConfigKeys | AdapterSpecificConfigs. -/
def configKeysWith (adapter : List String) : List String := ConfigKeys ++ adapter

mutual

/-- Modelled from the spec: deep_merge from dbt/utils.py is imported by
source_config.py but its source is not part of this excerpt.  Following the
spec (section 4.3), it is a structural deep merge of two values in which the
later argument wins key conflicts at every depth, recursively for nested
mappings, and any non-mapping pair is decided in favour of the later value. -/
def deep_merge : Value → Value → Value
  | a, b =>
    match a, b with
    | .vdict da, .vdict db => .vdict (dmDict da db)
    | _, _ => b

/-- Deep merge of two dicts: entries of the second dict are merged into the
first, in order; a colliding key deep-merges its two values, a new key is
appended. -/
def dmDict (da : Dict) : List (String × Value) → Dict
  | [] => da
  | (k, v) :: rest =>
    dmDict (aset da k (match alookup da k with
      | some w => deep_merge w v
      | none => v)) rest

end

/-- source_config.py lines 40-48: SourceConfig._merge folds each argument into
the accumulator with merged_config.update(deep_merge(merged_config.copy(),
config.copy())). -/
def pymergeOne (m c : Dict) : Dict := aupdate m (dmDict m c)

/-- source_config.py lines 40-48: SourceConfig._merge(*configs), starting from
the empty accumulator. -/
def pymerge (configs : List Dict) : Dict := configs.foldl pymergeOne []

/-- Modelled from the spec: NodeType (dbt/node_types.py is not part of this
excerpt) enumerates the unit kinds the resolver distinguishes: seed, snapshot,
test, and the generic model. -/
inductive NodeType where
  | Model : NodeType
  | Seed : NodeType
  | Snapshot : NodeType
  | Test : NodeType
deriving DecidableEq

/-- The project-context objects consumed by SourceConfig: a project exposes a
name, a models configuration tree and a seeds configuration tree (either tree
may be vnone, i.e. Python None). -/
structure Project where
  project_name : String
  models : Value
  seeds : Value

/-- The state of a SourceConfig instance (source_config.py lines 25-38):
the two project contexts, the unit's fqn and node type, the adapter-specific
key set obtained at construction, the opaque credentials.translate_aliases
function, and the owned in_model_config mapping. -/
structure Resolver where
  active_project : Project
  own_project : Project
  fqn : List String
  node_type : NodeType
  AdapterSpecificConfigs : List String
  translate_aliases : Dict → Dict
  in_model_config : Dict

/-- source_config.py lines 129-132: the dict comprehension filtering a
contribution dict to the recognized keys. -/
def filterRecognized (adapter : List String) (d : Dict) : Dict :=
  d.filter (fun kv => decide (kv.1 ∈ configKeysWith adapter))

/-- source_config.py lines 129-132 for an arbitrary new_configs value.
Iterating a dict yields its keys; iterating a string yields its characters
(none of which can be subscripted by a string, so a character that passes the
membership test raises TypeError); iterating a list yields its elements
(an unhashable element raises TypeError at the membership test, a string
element recognized as a config key raises TypeError at the subscript);
None, bools and ints are not iterable.  The result is the relevant_configs
dict, or none when an uncaught TypeError is raised. -/
def relevantOf (adapter : List String) : Value → Option Dict
  | .vdict d => some (filterRecognized adapter d)
  | .vstr s =>
    if s.toList.any (fun c => decide (String.mk [c] ∈ configKeysWith adapter)) then none
    else some []
  | .vlist xs =>
    if xs.any (fun x =>
        match x with
        | .vlist _ => true
        | .vdict _ => true
        | .vstr k => decide (k ∈ configKeysWith adapter)
        | _ => false) then none
    else some []
  | _ => none

/-- source_config.py lines 115-124: SourceConfig.__get_as_list — a missing key
contributes the empty list, a non-list value is wrapped as a singleton. -/
def getAsList (relevant : Dict) (key : String) : List Value :=
  match alookup relevant key with
  | none => []
  | some (.vlist items) => items
  | some v => [v]

/-- Python membership (the in operator) on an embedded list, testing with
Python equality. -/
def pyElem (v : Value) : List Value → Bool
  | [] => false
  | x :: xs => Value.beq v x || pyElem v xs

/-- source_config.py lines 134-138: the append-field loop of smart_update.
Each append key of mutable_config is extended with the contribution's elements
that are not already present (membership tested against the sequence as it was
before the extension, because the list comprehension is evaluated in full
before list.extend runs).  Returns none when mutable_config lacks the key
(uncaught KeyError) or holds a non-list there (uncaught AttributeError). -/
def appendPhase (mc : Dict) (relevant : Dict) : List String → Option Dict
  | [] => some mc
  | key :: rest =>
    match alookup mc key with
    | some (.vlist cur) =>
      appendPhase
        (aset mc key (.vlist (cur ++ (getAsList relevant key).filter (fun f => !(pyElem f cur)))))
        relevant rest
    | _ => none

/-- Outcome of the tuple unpacking k, v = item that dict.update performs on
each element of a non-mapping argument: a key/value pair (for the string-keyed
embedding, a pair whose key is a string), an unpacking failure (a ValueError
for a wrong-length item, or a TypeError for a non-iterable or unhashable-key
item — both caught by the callers' except clauses), or a pair whose key is a
hashable non-string (None, a bool or an int): Python inserts such a key, but
the resulting dict is outside the string-keyed embedding. -/
inductive PairRes where
  | pair : String → Value → PairRes
  | bad : PairRes
  | nonstr : PairRes

/-- The unpacking k, v = item of one element of dict.update's iterable
argument.  A two-character string unpacks into its two characters; a
two-element sequence unpacks into its elements, the key having to be hashable
(a list or dict key raises TypeError); a two-key mapping unpacks into its two
keys (iterating a dict yields its keys); every other iterable has the wrong
length (ValueError) and a scalar is not iterable (TypeError). -/
def pyUnpackPair : Value → PairRes
  | .vstr s =>
    match s.toList with
    | [c1, c2] => .pair (String.mk [c1]) (.vstr (String.mk [c2]))
    | _ => .bad
  | .vlist [k, v] =>
    match k with
    | .vstr s => .pair s v
    | .vlist _ => .bad
    | .vdict _ => .bad
    | _ => .nonstr
  | .vlist _ => .bad
  | .vdict [(k1, _), (k2, _)] => .pair k1 (.vstr k2)
  | .vdict _ => .bad
  | _ => .bad

/-- Result of dict.update: the updated contents, a caught exception
(ValueError/TypeError) together with the contents at the moment of the raise —
the pairs consumed before the offending item are already inserted — or a
successful update that inserted a non-string key, which the string-keyed
embedding cannot represent. -/
inductive PyUp where
  | okU : Dict → PyUp
  | errU : Dict → PyUp
  | nonstrU : PyUp

/-- The iterable-of-pairs protocol of dict.update: items are consumed in
order, each valid pair is inserted immediately, and the first invalid item
raises with the pairs inserted so far still in place. -/
def pyUpdateItems (cur : Dict) : List Value → PyUp
  | [] => .okU cur
  | item :: rest =>
    match pyUnpackPair item with
    | .pair k v => pyUpdateItems (aset cur k v) rest
    | .bad => .errU cur
    | .nonstr => .nonstrU

/-- Python dict.update(value) on contents cur: a mapping argument is a shallow
right-biased union; a sequence is consumed by the pairs protocol; a string is
iterated character by character, so a non-empty string raises on its first
one-character element and the empty string is a no-op; None, a bool or an int
is not iterable (TypeError, no mutation). -/
def pyDictUpdate (cur : Dict) : Value → PyUp
  | .vdict dv => .okU (aupdate cur dv)
  | .vlist xs => pyUpdateItems cur xs
  | .vstr s => pyUpdateItems cur (s.toList.map (fun c => .vstr (String.mk [c])))
  | _ => .errU cur

/-- Result of the dict-union loop: success, a compiler error naming the
offending field together with the accumulator at the moment of the raise, an
uncaught error, or a run leaving the string-keyed embedding (a dict acquiring
a non-string key). -/
inductive DictRes where
  | ok : Dict → DictRes
  | cerr : String → Dict → DictRes
  | perr : DictRes
  | nonstr : DictRes

/-- source_config.py lines 140-147: the dict-union loop of smart_update.
A missing accumulator key is an uncaught KeyError; a non-dict accumulator
value has no update method (AttributeError, which the except clause catches,
so it surfaces as the compiler error); an absent contribution updates with a
fresh empty dict, a no-op; otherwise dict.update runs with the accumulator
entry aliased, so on a caught exception the entry holds the partially updated
contents at the raise. -/
def dictPhase (mc : Dict) (relevant : Dict) : List String → DictRes
  | [] => .ok mc
  | key :: rest =>
    match alookup mc key with
    | none => .perr
    | some (.vdict cur) =>
      match alookup relevant key with
      | none => dictPhase mc relevant rest
      | some dval =>
        match pyDictUpdate cur dval with
        | .okU cur2 => dictPhase (aset mc key (.vdict cur2)) relevant rest
        | .errU cur2 => .cerr key (aset mc key (.vdict cur2))
        | .nonstrU => .nonstr
    | some _ => .cerr key mc

/-- source_config.py lines 149-151: the clobber loop of smart_update — every
recognized clobber or adapter-specific key present in the contribution
overwrites the accumulator entry. -/
def clobberPhase (mc : Dict) (relevant : Dict) : List String → Dict
  | [] => mc
  | key :: rest =>
    match alookup relevant key with
    | some v => clobberPhase (aset mc key v) relevant rest
    | none => clobberPhase mc relevant rest

/-- Result of smart_update: the mutated accumulator together with the
relevant_configs return value, a compiler error with the accumulator at the
raise, or an uncaught error. -/
inductive SURes where
  | ok : Dict → Dict → SURes
  | cerr : String → Dict → SURes
  | perr : SURes
  | nonstr : SURes

/-- source_config.py lines 126-153: SourceConfig.smart_update(mutable_config,
new_configs).  Filters the contribution to recognized keys, then runs the
append loop, the dict-union loop and the clobber loop in that order, and
returns the filtered contribution. -/
def smart_update (adapter : List String) (mc : Dict) (nc : Value) : SURes :=
  match relevantOf adapter nc with
  | none => .perr
  | some relevant =>
    match appendPhase mc relevant AppendListFields with
    | none => .perr
    | some mc1 =>
      match dictPhase mc1 relevant ExtendDictFields with
      | .perr => .perr
      | .cerr f mcErr => .cerr f mcErr
      | .nonstr => .nonstr
      | .ok mc2 => .ok (clobberPhase mc2 relevant (ClobberFields ++ adapter)) relevant

/-- source_config.py lines 158-162: the accumulator initialized with an empty
list for every append field and an empty dict for every dict-union field. -/
def gpInit : Dict :=
  AppendListFields.map (fun k => (k, Value.vlist [])) ++
  ExtendDictFields.map (fun k => (k, Value.vdict []))

/-- Result of get_project_config (and of the config property): the computed
configuration, a compiler error, or an uncaught error. -/
inductive GPRes where
  | ok : Dict → GPRes
  | cerr : String → GPRes
  | perr : GPRes
  | nonstr : GPRes

/-- The Python test x is None on an embedded value. -/
def isNoneV : Value → Bool
  | .vnone => true
  | _ => false

/-- Availability of the mapping interface (.get, subscripting by key): a dict
exposes its entries, any other value raises AttributeError when .get is
called on it. -/
def asDict : Value → Option Dict
  | .vdict d => some d
  | _ => none

/-- source_config.py lines 186-190: clobber_configs — the entries of
relevant_configs whose key is neither an append field nor a dict-union
field. -/
def gpClobber (relevant : Dict) : Dict :=
  relevant.filter (fun kv =>
    !(AppendListFields.contains kv.1) && !(ExtendDictFields.contains kv.1))

/-- source_config.py lines 177-193: the per-segment loop of
get_project_config.  model_configs.get(level) on a non-dict cursor raises an
uncaught AttributeError; an absent segment, or a segment mapped to None,
breaks out of the loop; otherwise the child is merged via smart_update, its
clobber-style relevant keys are written again via config.update, and the walk
descends into the child (model_configs = model_configs[level]). -/
def gpLoop (adapter : List String) (config : Dict) (model_configs : Value) : List String → GPRes
  | [] => .ok config
  | level :: rest =>
    match asDict model_configs with
    | none => .perr
    | some d =>
      match alookup d level with
      | none => .ok config
      | some lc =>
        if isNoneV lc then .ok config
        else
          match smart_update adapter config lc with
          | .perr => .perr
          | .cerr f _ => .cerr f
          | .nonstr => .nonstr
          | .ok c1 relevant => gpLoop adapter (aupdate c1 (gpClobber relevant)) lc rest

/-- source_config.py lines 164-169: the sub-tree searched for a given node
type — seeds for Seed, a fresh empty dict for Snapshot, models otherwise. -/
def treeFor (node_type : NodeType) (p : Project) : Value :=
  match node_type with
  | .Seed => p.seeds
  | .Snapshot => .vdict []
  | _ => p.models

/-- source_config.py lines 155-195: SourceConfig.get_project_config
(runtime_config).  Initializes the accumulator, selects the sub-tree by node
type, returns the bare accumulator when the tree is None, merges the tree's
root-level entries, then walks the fqn. -/
def get_project_config (adapter : List String) (fqn : List String)
    (node_type : NodeType) (runtime_config : Project) : GPRes :=
  let model_configs := treeFor node_type runtime_config
  if isNoneV model_configs then .ok gpInit
  else
    match smart_update adapter gpInit model_configs with
    | .perr => .perr
    | .cerr f _ => .cerr f
    | .nonstr => .nonstr
    | .ok c1 _ => gpLoop adapter c1 model_configs fqn

/-- source_config.py lines 67-75: the defaults computed by the config
property — enabled true and materialized view, with materialized overridden
for Seed and Snapshot and severity ERROR added for Test. -/
def defaultsFor (node_type : NodeType) : Dict :=
  let d : Dict := [("enabled", .vbool true), ("materialized", .vstr "view")]
  let d :=
    match node_type with
    | .Seed => aset d "materialized" (.vstr "seed")
    | .Snapshot => aset d "materialized" (.vstr "snapshot")
    | _ => d
  match node_type with
  | .Test => aset d "severity" (.vstr "ERROR")
  | _ => d

/-- source_config.py lines 53-89: the config property (resolve()).  The active
project's contribution is computed first; when the two project names agree the
result is _merge(defaults, active_config, in_model_config), otherwise the
owning project's contribution is also computed and the result is
_merge(defaults, own_config, in_model_config, active_config). -/
def SourceConfig.config (r : Resolver) : GPRes :=
  let defaults := defaultsFor r.node_type
  match get_project_config r.AdapterSpecificConfigs r.fqn r.node_type r.active_project with
  | .perr => .perr
  | .cerr f => .cerr f
  | .nonstr => .nonstr
  | .ok active_config =>
    if r.active_project.project_name = r.own_project.project_name then
      .ok (pymerge [defaults, active_config, r.in_model_config])
    else
      match get_project_config r.AdapterSpecificConfigs r.fqn r.node_type r.own_project with
      | .perr => .perr
      | .cerr f => .cerr f
      | .nonstr => .nonstr
      | .ok own_config =>
        .ok (pymerge [defaults, own_config, r.in_model_config, active_config])

/-- Result of update_in_model_config: the resolver after the update, a
compiler error naming the field together with the resolver at the moment of
the raise, or an uncaught error. -/
inductive UpdRes where
  | ok : Resolver → UpdRes
  | cerr : String → Resolver → UpdRes
  | perr : UpdRes
  | nonstr : UpdRes

/-- Assignment self.in_model_config[key] = v. -/
def setIMC (r : Resolver) (key : String) (v : Value) : Resolver :=
  { r with in_model_config := aset r.in_model_config key v }

/-- source_config.py line 99-100: a non-list value is wrapped as [value]. -/
def asPyList : Value → List Value
  | .vlist xs => xs
  | v => [v]

/-- source_config.py lines 96-113: the per-item loop of
update_in_model_config.  An append key extends the current list (no
de-duplication); a dict-union key runs dict.update on the current dict — when
the key is absent, current is a fresh dict never stored, so a caught exception
(compiler error) leaves the resolver unchanged, while for a present dict entry
current is that entry aliased, so at the raise it holds the partially updated
contents; a present non-dict entry has no update method (AttributeError,
caught); every other key — clobber, adapter-specific or unrecognized — is
assigned directly. -/
def updLoop (r : Resolver) : Dict → UpdRes
  | [] => .ok r
  | (key, value) :: rest =>
    if key ∈ AppendListFields then
      match alookup r.in_model_config key with
      | none => updLoop (setIMC r key (.vlist (asPyList value))) rest
      | some (.vlist cur) => updLoop (setIMC r key (.vlist (cur ++ asPyList value))) rest
      | some _ => .perr
    else if key ∈ ExtendDictFields then
      match alookup r.in_model_config key with
      | none =>
        match pyDictUpdate [] value with
        | .okU cur2 => updLoop (setIMC r key (.vdict cur2)) rest
        | .errU _ => .cerr key r
        | .nonstrU => .nonstr
      | some (.vdict cur) =>
        match pyDictUpdate cur value with
        | .okU cur2 => updLoop (setIMC r key (.vdict cur2)) rest
        | .errU cur2 => .cerr key (setIMC r key (.vdict cur2))
        | .nonstrU => .nonstr
      | some _ => .cerr key r
    else
      updLoop (setIMC r key value) rest

/-- source_config.py lines 94-113: SourceConfig.update_in_model_config —
translate adapter aliases, then fold every item of the translated mapping into
in_model_config. -/
def update_in_model_config (r : Resolver) (config : Dict) : UpdRes :=
  updLoop r (r.translate_aliases config)

/-- Projection: the in_model_config of a successful update, none otherwise. -/
def UpdRes.okConfig : UpdRes → Option Dict
  | .ok r => some r.in_model_config
  | _ => none

/-- Two successive update_in_model_config calls (two inline config blocks for
the same unit). -/
def updTwice (r : Resolver) (c1 c2 : Dict) : UpdRes :=
  match update_in_model_config r c1 with
  | .ok r1 => update_in_model_config r1 c2
  | e => e

/-- Projection: one entry of the accumulator of a successful smart_update. -/
def SURes.okEntry : SURes → String → Option Value
  | .ok mc _, key => alookup mc key
  | _, _ => none

/-- Two successive smart_update calls into the same accumulator. -/
def suTwice (adapter : List String) (mc : Dict) (n1 n2 : Value) : SURes :=
  match smart_update adapter mc n1 with
  | .ok mc1 _ => smart_update adapter mc1 n2
  | e => e

/-- The keys a tree value supplies directly (its own field-keyed entries). -/
def dictKeysOf : Value → List String
  | .vdict d => d.map Prod.fst
  | _ => []

/-- The keys supplied by the tree levels that the get_project_config walk
actually visits for a given fqn. -/
def gpVisitedKeys : Value → List String → List String
  | _, [] => []
  | m, level :: rest =>
    match asDict m with
    | none => []
    | some d =>
      match alookup d level with
      | none => []
      | some lc =>
        if isNoneV lc then [] else dictKeysOf lc ++ gpVisitedKeys lc rest

/-- All keys supplied somewhere in the chain of tree contributions consumed by
get_project_config for a given node type, project and fqn: the root-level
entries plus every visited level's entries. -/
def gpSupplied (node_type : NodeType) (fqn : List String) (p : Project) : List String :=
  dictKeysOf (treeFor node_type p) ++ gpVisitedKeys (treeFor node_type p) fqn

/-- A dict has distinct keys (true of every dict built by the embedding, and
of every real Python dict). -/
def NodupKeys (d : Dict) : Prop := (d.map Prod.fst).Nodup

/-- True of every embedded value except a mapping.  A deep merge whose later
argument is such a value is decided outright in favour of that value. -/
def notVDict : Value → Bool
  | .vdict _ => false
  | _ => true

/-! ## Heap embedding of get_project_config

The accumulator updates of smart_update are in-place mutations of whatever
object the accumulator entry currently references, and the clobber loop stores
references to tree values into the accumulator.  Whether the tree is mutated
is therefore a question about object identity, which the value-level embedding
above cannot ask.  This second embedding makes the mutable containers
explicit: a store maps addresses to list/dict objects, immediate values carry
immutables inline and containers by reference, and every operation of
get_project_config is translated store-passing, so a write to a tree-owned
address is observable. -/

/-- A Python immediate value: immutables inline, mutable containers (lists and
dicts) by reference into the store. -/
inductive HVal where
  | hnone : HVal
  | hbool : Bool → HVal
  | hint : Int → HVal
  | hstr : String → HVal
  | href : Nat → HVal
deriving DecidableEq

/-- A store object: a list or a (string-keyed) dict of immediate values. -/
inductive HObj where
  | hlist : List HVal → HObj
  | hdict : List (String × HVal) → HObj
deriving DecidableEq

/-- The store: object at address a is the a-th entry. -/
abbrev Store := List HObj

/-- The entries of a heap dict object. -/
abbrev HDict := List (String × HVal)

/-- Dereference an address.  A dangling address cannot arise in Python; runs
that would dereference one are marked as outside the embedding below. -/
def readObj (σ : Store) (a : Nat) : Option HObj := σ.get? a

/-- In-place mutation of the object at an address. -/
def writeObj (σ : Store) (a : Nat) (o : HObj) : Store := σ.set a o

/-- Heap-dict lookup (d.get(key) / key in d). -/
def alookupH : HDict → String → Option HVal
  | [], _ => none
  | (k, v) :: rest, key => if k = key then some v else alookupH rest key

/-- Heap-dict assignment d[key] = v: overwrites in place, or appends. -/
def asetH : HDict → String → HVal → HDict
  | [], key, v => [(key, v)]
  | (k, w) :: rest, key, v =>
    if k = key then (k, v) :: rest else (k, w) :: asetH rest key v

/-- Heap-dict update d.update(src) for a dict src: every entry of src is
assigned in order. -/
def aupdateH (d : HDict) : HDict → HDict
  | [] => d
  | (k, v) :: rest => aupdateH (asetH d k v) rest

/-- Elementwise comparison of two heap lists by a given equality test. -/
def allEqL (eq : HVal → HVal → Bool) : List HVal → List HVal → Bool
  | [], [] => true
  | x :: xs, y :: ys => eq x y && allEqL eq xs ys
  | _, _ => false

/-- Containment of a heap dict's entries in another by a given equality test
on values (with equal lengths this is dict equality, keys being unique). -/
def allEqD (eq : HVal → HVal → Bool) (ys : HDict) : HDict → Bool
  | [] => true
  | (k, v) :: rest =>
    (match alookupH ys k with
     | some w => eq v w
     | none => false) && allEqD eq ys rest

/-- Python == on heap values: immutables structurally, containers by value
through the store.  The fuel bounds the dereferencing depth; an acyclic
comparison needs at most one dereference per store object, and a cyclic
comparison — on which CPython itself raises RecursionError — is outside the
embedding (the bounded recursion returns false there). -/
def hvalEq (σ : Store) : Nat → HVal → HVal → Bool
  | 0, _, _ => false
  | fuel + 1, v1, v2 =>
    match v1, v2 with
    | .hnone, .hnone => true
    | .hbool a, .hbool b => a == b
    | .hint a, .hint b => a == b
    | .hstr a, .hstr b => a == b
    | .href a, .href b =>
      match readObj σ a, readObj σ b with
      | some (.hlist xs), some (.hlist ys) =>
        allEqL (fun x y => hvalEq σ fuel x y) xs ys
      | some (.hdict xs), some (.hdict ys) =>
        xs.length == ys.length && allEqD (fun x y => hvalEq σ fuel x y) ys xs
      | _, _ => false
    | _, _ => false

/-- Python membership f in l on heap values (an == test against each
element). -/
def hElem (σ : Store) (v : HVal) (l : List HVal) : Bool :=
  l.any (fun x => hvalEq σ (σ.length + 1) v x)

/-- The Python test x is None on a heap value. -/
def isNoneH : HVal → Bool
  | .hnone => true
  | _ => false

/-- An abnormal outcome of a heap-level step: the compiler error naming a
field, an uncaught Python error, or a run outside the embedding (a dangling
reference — impossible in Python — or a dict acquiring a non-string key,
which Python permits but the string-keyed embedding cannot represent). -/
inductive HErr where
  | cerr : String → HErr
  | perr : HErr
  | ill : HErr

/-- The unpacking k, v = item on a heap value: as pyUnpackPair, with
two-element sequences and two-key mappings read through the store (an address
always holds a container, so a reference used as a key is unhashable). -/
inductive HPair where
  | pairU : String → HVal → HPair
  | badU : HPair
  | nonstrP : HPair
  | illP : HPair

/-- Heap version of pyUnpackPair. -/
def hUnpackPair (σ : Store) : HVal → HPair
  | .hstr s =>
    match s.toList with
    | [c1, c2] => .pairU (String.mk [c1]) (.hstr (String.mk [c2]))
    | _ => .badU
  | .href a =>
    match readObj σ a with
    | some (.hlist [k, v]) =>
      match k with
      | .hstr s => .pairU s v
      | .href _ => .badU
      | _ => .nonstrP
    | some (.hlist _) => .badU
    | some (.hdict [(k1, _), (k2, _)]) => .pairU k1 (.hstr k2)
    | some (.hdict _) => .badU
    | none => .illP
  | _ => .badU

/-- Result of a heap-level dict.update on a dict's contents: the updated
contents, the contents at the moment of a caught raise, or an outside-the-
embedding run. -/
inductive HUp where
  | okU : HDict → HUp
  | errU : HDict → HUp
  | nonstrU : HUp
  | illU : HUp

/-- Heap version of pyUpdateItems. -/
def hUpdateItems (σ : Store) (cur : HDict) : List HVal → HUp
  | [] => .okU cur
  | item :: rest =>
    match hUnpackPair σ item with
    | .pairU k v => hUpdateItems σ (asetH cur k v) rest
    | .badU => .errU cur
    | .nonstrP => .nonstrU
    | .illP => .illU

/-- Heap version of pyDictUpdate: the argument is dereferenced, a dict being a
shallow right-biased union and a list being consumed by the pairs protocol. -/
def hDictUpdate (σ : Store) (cur : HDict) : HVal → HUp
  | .href a =>
    match readObj σ a with
    | some (.hdict dv) => .okU (aupdateH cur dv)
    | some (.hlist xs) => hUpdateItems σ cur xs
    | none => .illU
  | .hstr s => hUpdateItems σ cur (s.toList.map (fun c => .hstr (String.mk [c])))
  | _ => .errU cur

/-- source_config.py lines 127-132, heap level: the relevant_configs
comprehension.  The contribution is dereferenced: a dict is filtered to the
recognized keys (values shared by reference); iterating a list raises
TypeError as soon as an element is an unhashable container or a recognized
string (the in-test against the key set), and otherwise contributes nothing;
iterating a string likewise; scalars are not iterable. -/
def heapRelevantOf (adapter : List String) (σ : Store) : HVal → Except HErr HDict
  | .href a =>
    match readObj σ a with
    | some (.hdict d) => .ok (d.filter (fun kv => decide (kv.1 ∈ configKeysWith adapter)))
    | some (.hlist xs) =>
      if xs.any (fun x =>
          match x with
          | .href _ => true
          | .hstr k => decide (k ∈ configKeysWith adapter)
          | _ => false)
      then .error .perr else .ok []
    | none => .error .ill
  | .hstr s =>
    if s.toList.any (fun c => decide (String.mk [c] ∈ configKeysWith adapter))
    then .error .perr else .ok []
  | _ => .error .perr

/-- source_config.py lines 115-124, heap level: __get_as_list.  An absent key
contributes nothing; a list value contributes its elements (read at call
time); any other value — including a referenced dict — is wrapped as a single
item. -/
def heapGetAsList (σ : Store) (relevant : HDict) (key : String) : Except HErr (List HVal) :=
  match alookupH relevant key with
  | none => .ok []
  | some (.href a) =>
    match readObj σ a with
    | some (.hlist xs) => .ok xs
    | some (.hdict _) => .ok [.href a]
    | none => .error .ill
  | some v => .ok [v]

/-- source_config.py lines 134-138, heap level: the append loop.  The
accumulator entry must reference a list — the write targets that object's
address, whatever object the entry references after previous clobbering; a
non-list entry has no extend method (uncaught AttributeError), a missing key
is an uncaught KeyError.  The membership filter for de-duplication runs
against the list's contents before the extension. -/
def heapAppendPhase (σ : Store) (config relevant : HDict) : List String → Store × Option HErr
  | [] => (σ, none)
  | key :: rest =>
    match alookupH config key with
    | some (.href a) =>
      match readObj σ a with
      | some (.hlist cur) =>
        match heapGetAsList σ relevant key with
        | .ok items =>
          heapAppendPhase
            (writeObj σ a (.hlist (cur ++ items.filter (fun f => !(hElem σ f cur)))))
            config relevant rest
        | .error e => (σ, some e)
      | some (.hdict _) => (σ, some .perr)
      | none => (σ, some .ill)
    | some _ => (σ, some .perr)
    | none => (σ, some .perr)

/-- source_config.py lines 140-147, heap level: the dict-union loop.  The
accumulator entry must reference a dict (a referenced list or an immediate has
no update method: AttributeError, caught as the compiler error; a missing key
is an uncaught KeyError); an absent contribution updates with a fresh empty
dict, a no-op; otherwise dict.update mutates the referenced object in place,
also when a caught exception leaves it partially updated. -/
def heapDictPhase (σ : Store) (config relevant : HDict) : List String → Store × Option HErr
  | [] => (σ, none)
  | key :: rest =>
    match alookupH config key with
    | some (.href a) =>
      match readObj σ a with
      | some (.hdict cur) =>
        match alookupH relevant key with
        | none => heapDictPhase σ config relevant rest
        | some dval =>
          match hDictUpdate σ cur dval with
          | .okU cur2 => heapDictPhase (writeObj σ a (.hdict cur2)) config relevant rest
          | .errU cur2 => (writeObj σ a (.hdict cur2), some (.cerr key))
          | .nonstrU => (σ, some .ill)
          | .illU => (σ, some .ill)
      | some (.hlist _) => (σ, some (.cerr key))
      | none => (σ, some .ill)
    | some _ => (σ, some (.cerr key))
    | none => (σ, some .perr)

/-- source_config.py lines 149-151, heap level: the clobber loop rebinds
accumulator entries to the contribution's values — references into the tree
included — and writes nothing into the store. -/
def heapClobberPhase (config relevant : HDict) : List String → HDict
  | [] => config
  | key :: rest =>
    match alookupH relevant key with
    | some v => heapClobberPhase (asetH config key v) relevant rest
    | none => heapClobberPhase config relevant rest

/-- Result of a heap-level smart_update: the store after the call together
with the rebound accumulator and relevant_configs, or an abnormal outcome
with the store at that point. -/
inductive HSU where
  | ok : Store → HDict → HDict → HSU
  | cerr : String → Store → HSU
  | perr : Store → HSU
  | ill : Store → HSU

/-- Injection of an abnormal outcome into HSU. -/
def errHSU : HErr → Store → HSU
  | .cerr f, σ => .cerr f σ
  | .perr, σ => .perr σ
  | .ill, σ => .ill σ

/-- The store component of a heap-level smart_update result. -/
def HSU.store : HSU → Store
  | .ok σ _ _ => σ
  | .cerr _ σ => σ
  | .perr σ => σ
  | .ill σ => σ

/-- source_config.py lines 126-153, heap level: smart_update.  The
accumulator dict itself is a local of get_project_config that nothing else
references, so it is threaded by value; its entries are heap values. -/
def heapSmartUpdate (adapter : List String) (σ : Store) (config : HDict) (nc : HVal) : HSU :=
  match heapRelevantOf adapter σ nc with
  | .error e => errHSU e σ
  | .ok relevant =>
    match heapAppendPhase σ config relevant AppendListFields with
    | (σ1, some e) => errHSU e σ1
    | (σ1, none) =>
      match heapDictPhase σ1 config relevant ExtendDictFields with
      | (σ2, some e) => errHSU e σ2
      | (σ2, none) =>
        .ok σ2 (heapClobberPhase config relevant (ClobberFields ++ adapter)) relevant

/-- Allocation of a fresh object at the end of the store: the store after the
loop config[k] = [] / config[k] = {} over a list of keyed objects. -/
def allocManyStore (σ : Store) : List (String × HObj) → Store
  | [] => σ
  | (_, o) :: rest => allocManyStore (σ ++ [o]) rest

/-- The accumulator built by the same loop: each key bound to the address its
object was allocated at. -/
def allocManyDict (σ : Store) : List (String × HObj) → HDict
  | [] => []
  | (k, o) :: rest => (k, .href σ.length) :: allocManyDict (σ ++ [o]) rest

/-- source_config.py lines 158-162: a fresh empty list object per append
field and a fresh empty dict object per dict-union field. -/
def gpInitObjs : List (String × HObj) :=
  AppendListFields.map (fun k => (k, HObj.hlist [])) ++
  ExtendDictFields.map (fun k => (k, HObj.hdict []))

/-- The store after get_project_config's accumulator initialization. -/
def heapGpInitStore (σ : Store) : Store := allocManyStore σ gpInitObjs

/-- The freshly initialized accumulator (every entry references a fresh
object). -/
def heapGpInitCfg (σ : Store) : HDict := allocManyDict σ gpInitObjs

/-- source_config.py lines 186-190, heap level: clobber_configs. -/
def hClobberCfgs (relevant : HDict) : HDict :=
  relevant.filter (fun kv =>
    !(AppendListFields.contains kv.1) && !(ExtendDictFields.contains kv.1))

/-- Result of the heap-level walk: the final store together with the
accumulator, or an abnormal outcome with the store at that point. -/
inductive HGP where
  | ok : Store → HDict → HGP
  | cerr : String → Store → HGP
  | perr : Store → HGP
  | ill : Store → HGP

/-- The store component of a heap-level get_project_config result. -/
def HGP.store : HGP → Store
  | .ok σ _ => σ
  | .cerr _ σ => σ
  | .perr σ => σ
  | .ill σ => σ

/-- source_config.py lines 177-193, heap level: the per-segment loop.  The
cursor is a heap value: .get on a non-dict raises an uncaught AttributeError;
an absent segment or a None child breaks; otherwise the child is merged via
smart_update and its clobber-style keys written again, and the walk descends
into model_configs[level], re-read after the update (a key absent at that
point is an uncaught KeyError, subscripting a list by a string an uncaught
TypeError). -/
def heapGpLoop (adapter : List String) (σ : Store) (config : HDict) (mref : HVal) :
    List String → HGP
  | [] => .ok σ config
  | level :: rest =>
    match mref with
    | .href a =>
      match readObj σ a with
      | some (.hdict d) =>
        match alookupH d level with
        | none => .ok σ config
        | some lc =>
          if isNoneH lc then .ok σ config
          else
            match heapSmartUpdate adapter σ config lc with
            | .perr σ1 => .perr σ1
            | .cerr f σ1 => .cerr f σ1
            | .ill σ1 => .ill σ1
            | .ok σ1 config1 relevant =>
              match readObj σ1 a with
              | some (.hdict d1) =>
                match alookupH d1 level with
                | some lc1 =>
                  heapGpLoop adapter σ1 (aupdateH config1 (hClobberCfgs relevant)) lc1 rest
                | none => .perr σ1
              | some (.hlist _) => .perr σ1
              | none => .ill σ1
      | some (.hlist _) => .perr σ
      | none => .ill σ
    | _ => .perr σ

/-- source_config.py lines 155-195, heap level: get_project_config on a
selected tree (the models or seeds value of the runtime config).  The
accumulator is initialized — allocating its fresh objects — before the
is-None test, then the root-level entries are merged and the fqn walked. -/
def heapGp (adapter fqn : List String) (models : HVal) (σ : Store) : HGP :=
  if isNoneH models then .ok (heapGpInitStore σ) (heapGpInitCfg σ)
  else
    match heapSmartUpdate adapter (heapGpInitStore σ) (heapGpInitCfg σ) models with
    | .perr σ1 => .perr σ1
    | .cerr f σ1 => .cerr f σ1
    | .ill σ1 => .ill σ1
    | .ok σ1 config1 _ => heapGpLoop adapter σ1 config1 models fqn

/-! Concrete instances used to exercise the theorems on closed inputs. -/

/-- A project with empty configuration trees. -/
def emptyProject : Project := ⟨"proj", .vdict [], .vdict []⟩

/-- A Model resolver for a first-party unit with no configuration anywhere;
alias translation is the identity, as for an adapter with no aliases. -/
def baseResolver : Resolver := ⟨emptyProject, emptyProject, [], .Model, [], fun c => c, []⟩

/-- baseResolver after an inline declaration put one tag in place. -/
def tagResolver : Resolver :=
  { baseResolver with in_model_config := [("tags", .vlist [.vstr "x"])] }

/-- A Seed resolver with no configuration anywhere. -/
def seedResolver : Resolver := ⟨emptyProject, emptyProject, ["m"], .Seed, [], fun c => c, []⟩

/-- A Test resolver with no configuration anywhere. -/
def testResolver : Resolver := ⟨emptyProject, emptyProject, ["m"], .Test, [], fun c => c, []⟩

/-- The effective configuration of seedResolver. -/
def seedCfg : Dict :=
  [("enabled", .vbool true), ("materialized", .vstr "seed"),
   ("pre-hook", .vlist []), ("post-hook", .vlist []), ("tags", .vlist []),
   ("vars", .vdict []), ("column_types", .vdict []), ("quoting", .vdict []),
   ("persist_docs", .vdict [])]

/-- The effective configuration of testResolver. -/
def testCfg : Dict :=
  [("enabled", .vbool true), ("materialized", .vstr "view"), ("severity", .vstr "ERROR"),
   ("pre-hook", .vlist []), ("post-hook", .vlist []), ("tags", .vlist []),
   ("vars", .vdict []), ("column_types", .vdict []), ("quoting", .vdict []),
   ("persist_docs", .vdict [])]

/-- The accumulator after one smart_update of two tags into the initial
accumulator. -/
def tagsOnceCfg : Dict :=
  [("pre-hook", .vlist []), ("post-hook", .vlist []),
   ("tags", .vlist [.vstr "a", .vstr "b"]),
   ("vars", .vdict []), ("column_types", .vdict []), ("quoting", .vdict []),
   ("persist_docs", .vdict [])]

/-- A models tree whose entry for segment a is a boolean, not a sub-mapping. -/
def boolChildProject : Project := ⟨"proj", .vdict [("a", .vbool true)], .vnone⟩

/-- A models tree whose entry for segment a is a string, not a sub-mapping. -/
def strChildProject : Project := ⟨"proj", .vdict [("a", .vstr "x")], .vnone⟩

/-- A first-party resolver whose project tree sets materialized at the root
and whose inline declaration overrides it. -/
def sameResolver : Resolver :=
  ⟨⟨"p", .vdict [("materialized", .vstr "table")], .vdict []⟩,
   ⟨"p", .vdict [], .vdict []⟩, [], .Model, [], fun c => c,
   [("materialized", .vstr "ephemeral")]⟩

/-- The active-project contribution computed for sameResolver and
depResolver. -/
def sameActiveCfg : Dict :=
  [("pre-hook", .vlist []), ("post-hook", .vlist []), ("tags", .vlist []),
   ("vars", .vdict []), ("column_types", .vdict []), ("quoting", .vdict []),
   ("persist_docs", .vdict []), ("materialized", .vstr "table")]

/-- A dependency-project resolver: the active project scopes materialized for
the unit, the owning project and the inline declaration disagree with it. -/
def depResolver : Resolver :=
  ⟨⟨"p", .vdict [("materialized", .vstr "table")], .vdict []⟩,
   ⟨"q", .vdict [("materialized", .vstr "incremental")], .vdict []⟩, [], .Model, [],
   fun c => c, [("materialized", .vstr "ephemeral")]⟩

/-- The owning-project contribution computed for depResolver. -/
def depOwnCfg : Dict :=
  [("pre-hook", .vlist []), ("post-hook", .vlist []), ("tags", .vlist []),
   ("vars", .vdict []), ("column_types", .vdict []), ("quoting", .vdict []),
   ("persist_docs", .vdict []), ("materialized", .vstr "incremental")]

/-- baseResolver with a one-entry dict already stored under column_types. -/
def colResolver : Resolver :=
  { baseResolver with in_model_config := [("column_types", .vdict [("x", .vint 1)])] }

/-- A store holding a models tree with a root-level tags list (object 1) and a
child node (object 2) carrying its own tags list (object 3): the tree value is
the dict at address 0, i.e. the heap form of the tree with tags [a] at the
root and tags [b] under child. -/
def c9Store : Store :=
  [.hdict [("tags", .href 1), ("child", .href 2)],
   .hlist [.hstr "a"],
   .hdict [("tags", .href 3)],
   .hlist [.hstr "b"]]

/-! ## Basic lemmas about the dict embedding -/

mutual

/-- Python equality is reflexive on embedded values. -/
theorem Value.beq_refl : ∀ v : Value, Value.beq v v = true
  | .vnone => rfl
  | .vbool b => by simp [Value.beq]
  | .vint n => by simp [Value.beq]
  | .vstr s => by simp [Value.beq]
  | .vlist xs => Value.beqL_refl xs
  | .vdict d => Value.beqD_refl d

/-- Python equality is reflexive on embedded value lists. -/
theorem Value.beqL_refl : ∀ xs : List Value, Value.beqL xs xs = true
  | [] => rfl
  | x :: xs => by simp [Value.beqL, Value.beq_refl x, Value.beqL_refl xs]

/-- Python equality is reflexive on embedded dicts. -/
theorem Value.beqD_refl : ∀ d : List (String × Value), Value.beqD d d = true
  | [] => rfl
  | (k, v) :: d => by simp [Value.beqD, Value.beq_refl v, Value.beqD_refl d]

end

/-- Membership implies Python list containment. -/
theorem pyElem_of_mem {v : Value} {l : List Value} (h : v ∈ l) : pyElem v l = true := by
  induction l with
  | nil => cases h
  | cons x xs ih =>
    rcases List.mem_cons.mp h with h | h
    · subst h
      simp [pyElem, Value.beq_refl]
    · simp [pyElem, ih h]

/-- Python list containment distributes over append. -/
theorem pyElem_append (l1 l2 : List Value) (v : Value) :
    pyElem v (l1 ++ l2) = (pyElem v l1 || pyElem v l2) := by
  induction l1 with
  | nil => simp [pyElem]
  | cons x xs ih => simp [pyElem, ih, Bool.or_assoc]

theorem alookup_aset (d : Dict) (key : String) (val : Value) (j : String) :
    alookup (aset d key val) j = if key = j then some val else alookup d j := by
  induction d with
  | nil => by_cases hj : key = j <;> simp [aset, alookup, hj]
  | cons kv rest ih =>
    obtain ⟨k, v⟩ := kv
    by_cases hk : k = key
    · subst hk
      by_cases hj : k = j <;> simp [aset, alookup, hj]
    · by_cases hj : k = j
      · subst hj
        have hkj : ¬ key = k := fun h => hk h.symm
        simp [aset, hk, alookup, hkj]
      · simp [aset, hk, alookup, hj, ih]

/-- Key presence in a dict is key membership in its key list. -/
theorem alookup_isSome_iff (d : Dict) (j : String) :
    (alookup d j).isSome = true ↔ j ∈ d.map Prod.fst := by
  induction d with
  | nil => simp [alookup]
  | cons kv rest ih =>
    obtain ⟨k, v⟩ := kv
    by_cases hj : k = j
    · subst hj
      simp [alookup]
    · have hjk : ¬ j = k := fun h => hj h.symm
      simp [alookup, hj, ih, hjk]

theorem alookup_eq_none_iff (d : Dict) (j : String) :
    alookup d j = none ↔ j ∉ d.map Prod.fst := by
  rw [← alookup_isSome_iff]
  cases alookup d j <;> simp

/-- Writing back the value a key already holds changes nothing. -/
theorem aset_self :
    ∀ (d : Dict) (k : String) (v : Value), alookup d k = some v → aset d k v = d := by
  intro d
  induction d with
  | nil => intro k v h; simp [alookup] at h
  | cons kv rest ih =>
    intro k v h
    obtain ⟨k0, v0⟩ := kv
    simp only [alookup] at h
    by_cases hk : k0 = k
    · rw [if_pos hk] at h
      injection h with h1
      simp [aset, hk, h1]
    · rw [if_neg hk] at h
      simp [aset, hk, ih k v h]

/-- A dict write never empties the dict. -/
theorem aset_ne_nil : ∀ (d : Dict) (k : String) (v : Value), aset d k v ≠ [] := by
  intro d k v
  cases d with
  | nil => simp [aset]
  | cons kv rest =>
    obtain ⟨k0, v0⟩ := kv
    simp only [aset]
    split <;> simp

/-- The pairs protocol only inserts: once the contents are non-empty, the
contents at a caught raise are non-empty too. -/
theorem pyUpdateItems_err_ne_nil :
    ∀ (items : List Value) (cur d : Dict), cur ≠ [] →
    pyUpdateItems cur items = .errU d → d ≠ [] := by
  intro items
  induction items with
  | nil => intro cur d _ h; simp [pyUpdateItems] at h
  | cons item rest ih =>
    intro cur d hcur h
    simp only [pyUpdateItems] at h
    cases hp : pyUnpackPair item <;> rw [hp] at h
    · exact ih _ _ (aset_ne_nil _ _ _) h
    · injection h with h1
      rw [← h1]
      exact hcur
    · simp at h

/-- A value on which dict.update raises before inserting any pair (it raises
with empty contents from empty contents) raises with unchanged contents from
any contents: the raise happens at the argument itself or at its first
item. -/
theorem pyDictUpdate_err_empty :
    ∀ (v : Value), pyDictUpdate [] v = .errU [] →
    ∀ cur : Dict, pyDictUpdate cur v = .errU cur := by
  intro v h cur
  cases v with
  | vnone => rfl
  | vbool b => rfl
  | vint n => rfl
  | vdict dv => simp [pyDictUpdate] at h
  | vstr s =>
    cases hs : s.toList with
    | nil =>
      exfalso
      simp only [pyDictUpdate, hs] at h
      simp [pyUpdateItems] at h
    | cons c cs =>
      simp only [pyDictUpdate, hs]
      rfl
  | vlist xs =>
    cases xs with
    | nil => simp [pyDictUpdate, pyUpdateItems] at h
    | cons item rest =>
      simp only [pyDictUpdate, pyUpdateItems] at h
      cases hp : pyUnpackPair item with
      | pair k v =>
        exfalso
        rw [hp] at h
        exact pyUpdateItems_err_ne_nil rest (aset [] k v) [] (aset_ne_nil [] k v) h rfl
      | bad =>
        simp only [pyDictUpdate, pyUpdateItems, hp]
      | nonstr =>
        rw [hp] at h
        simp at h

/-- Keys of an in-place dict write. -/
theorem keys_aset (d : Dict) (key : String) (val : Value) :
    (aset d key val).map Prod.fst =
      if key ∈ d.map Prod.fst then d.map Prod.fst else d.map Prod.fst ++ [key] := by
  induction d with
  | nil => simp [aset]
  | cons kv rest ih =>
    obtain ⟨k, v⟩ := kv
    by_cases hk : k = key
    · subst hk
      simp [aset]
    · have hne : ¬ key = k := fun h => hk h.symm
      simp only [aset, if_neg hk, List.map_cons]
      rw [ih]
      by_cases hmem : key ∈ rest.map Prod.fst
      · simp [hmem, List.mem_cons, hne]
      · simp [hmem, List.mem_cons, hne]

theorem nodupKeys_cons {k : String} {v : Value} {rest : Dict}
    (h : NodupKeys ((k, v) :: rest)) : k ∉ rest.map Prod.fst ∧ NodupKeys rest := by
  unfold NodupKeys at h ⊢
  rw [List.map_cons, List.nodup_cons] at h
  exact h

theorem nodupKeys_aset {d : Dict} (key : String) (val : Value) (h : NodupKeys d) :
    NodupKeys (aset d key val) := by
  unfold NodupKeys at h ⊢
  rw [keys_aset]
  by_cases hmem : key ∈ d.map Prod.fst
  · simpa [hmem] using h
  · rw [if_neg hmem]
    exact List.Nodup.append h (List.nodup_singleton key) (by simpa using hmem)

theorem nodupKeys_aupdate {d : Dict} (src : Dict) (h : NodupKeys d) :
    NodupKeys (aupdate d src) := by
  induction src generalizing d with
  | nil => exact h
  | cons kv rest ih =>
    obtain ⟨k, v⟩ := kv
    exact ih (nodupKeys_aset k v h)

theorem alookup_aupdate :
    ∀ (src : Dict) (d : Dict) (j : String), NodupKeys src →
    alookup (aupdate d src) j =
      match alookup src j with
      | some v => some v
      | none => alookup d j := by
  intro src
  induction src with
  | nil => intro d j _; simp [aupdate, alookup]
  | cons kv rest ih =>
    intro d j h
    obtain ⟨k, v⟩ := kv
    obtain ⟨hk, hrest⟩ := nodupKeys_cons h
    show alookup (aupdate (aset d k v) rest) j = _
    rw [ih (aset d k v) j hrest]
    by_cases hj : k = j
    · subst hj
      have hnone : alookup rest k = none := (alookup_eq_none_iff rest k).mpr hk
      simp [hnone, alookup, alookup_aset]
    · cases hrj : alookup rest j <;> simp [hrj, alookup, hj, alookup_aset]

theorem isSome_aset_iff (d : Dict) (key : String) (val : Value) (j : String) :
    (alookup (aset d key val) j).isSome = true ↔
      (key = j ∨ (alookup d j).isSome = true) := by
  rw [alookup_aset]
  by_cases hk : key = j <;> simp [hk]

theorem isSome_aupdate_iff (src : Dict) (d : Dict) (j : String) :
    (alookup (aupdate d src) j).isSome = true ↔
      ((alookup src j).isSome = true ∨ (alookup d j).isSome = true) := by
  induction src generalizing d with
  | nil => simp [aupdate, alookup]
  | cons kv rest ih =>
    obtain ⟨k, v⟩ := kv
    show (alookup (aupdate (aset d k v) rest) j).isSome = true ↔ _
    rw [ih, isSome_aset_iff]
    by_cases hj : k = j
    · subst hj
      simp [alookup]
    · simp only [alookup, if_neg hj]
      tauto

/-! ## Lemmas about the deep merge and the _merge fold -/

theorem nodupKeys_dmDict :
    ∀ (db : List (String × Value)) (da : Dict), NodupKeys da → NodupKeys (dmDict da db) := by
  intro db
  induction db with
  | nil => intro da h; exact h
  | cons kv rest ih =>
    intro da h
    obtain ⟨k, v⟩ := kv
    exact ih _ (nodupKeys_aset _ _ h)

theorem alookup_dmDict :
    ∀ (db : List (String × Value)) (da : Dict) (j : String), NodupKeys db →
    alookup (dmDict da db) j =
      match alookup db j, alookup da j with
      | some v, some w => some (deep_merge w v)
      | some v, none => some v
      | none, x => x := by
  intro db
  induction db with
  | nil => intro da j _; cases hda : alookup da j <;> simp [dmDict, alookup, hda]
  | cons kv rest ih =>
    intro da j h
    obtain ⟨k, v⟩ := kv
    obtain ⟨hk, hrest⟩ := nodupKeys_cons h
    show alookup (dmDict (aset da k _) rest) j = _
    rw [ih _ j hrest]
    by_cases hj : k = j
    · subst hj
      have hnone : alookup rest k = none := (alookup_eq_none_iff rest k).mpr hk
      cases hda : alookup da k <;> simp [hnone, hda, alookup, alookup_aset]
    · cases hrj : alookup rest j <;>
        cases hda : alookup da j <;>
        simp [hrj, hda, alookup, hj, alookup_aset]

theorem isSome_dmDict_left :
    ∀ (db : List (String × Value)) (da : Dict) (j : String),
    (alookup da j).isSome = true → (alookup (dmDict da db) j).isSome = true := by
  intro db
  induction db with
  | nil => intro da j h; exact h
  | cons kv rest ih =>
    intro da j h
    obtain ⟨k, v⟩ := kv
    exact ih _ j ((isSome_aset_iff _ _ _ _).mpr (Or.inr h))

theorem isSome_dmDict_right :
    ∀ (db : List (String × Value)) (da : Dict) (j : String),
    (alookup db j).isSome = true → (alookup (dmDict da db) j).isSome = true := by
  intro db
  induction db with
  | nil => intro da j h; simp [alookup] at h
  | cons kv rest ih =>
    intro da j h
    obtain ⟨k, v⟩ := kv
    by_cases hj : k = j
    · show (alookup (dmDict (aset da k _) rest) j).isSome = true
      exact isSome_dmDict_left rest _ j ((isSome_aset_iff _ _ _ _).mpr (Or.inl hj))
    · simp only [alookup, if_neg hj] at h
      exact ih _ j h

theorem isSome_dmDict_backward :
    ∀ (db : List (String × Value)) (da : Dict) (j : String),
    (alookup (dmDict da db) j).isSome = true →
    (alookup da j).isSome = true ∨ (alookup db j).isSome = true := by
  intro db
  induction db with
  | nil => intro da j h; exact Or.inl h
  | cons kv rest ih =>
    intro da j h
    obtain ⟨k, v⟩ := kv
    rcases ih _ j h with h1 | h1
    · rcases (isSome_aset_iff _ _ _ _).mp h1 with h2 | h2
      · subst h2
        simp [alookup]
      · exact Or.inl h2
    · right
      by_cases hj : k = j <;> simp [alookup, hj, h1]

theorem nodupKeys_pymergeOne {m : Dict} (c : Dict) (h : NodupKeys m) :
    NodupKeys (pymergeOne m c) :=
  nodupKeys_aupdate _ h

theorem alookup_pymergeOne (m c : Dict) (j : String) (hm : NodupKeys m) (hc : NodupKeys c) :
    alookup (pymergeOne m c) j =
      match alookup c j, alookup m j with
      | some v, some w => some (deep_merge w v)
      | some v, none => some v
      | none, x => x := by
  unfold pymergeOne
  rw [alookup_aupdate _ _ _ (nodupKeys_dmDict _ _ hm), alookup_dmDict _ _ _ hc]
  cases alookup c j <;> cases alookup m j <;> simp

theorem isSome_pymergeOne_left {m : Dict} {j : String} (c : Dict)
    (h : (alookup m j).isSome = true) : (alookup (pymergeOne m c) j).isSome = true :=
  (isSome_aupdate_iff _ _ _).mpr (Or.inr h)

theorem isSome_pymergeOne_right {c : Dict} {j : String} (m : Dict)
    (h : (alookup c j).isSome = true) : (alookup (pymergeOne m c) j).isSome = true :=
  (isSome_aupdate_iff _ _ _).mpr (Or.inl (isSome_dmDict_right _ _ _ h))

theorem isSome_pymergeOne_backward {m c : Dict} {j : String}
    (h : (alookup (pymergeOne m c) j).isSome = true) :
    (alookup m j).isSome = true ∨ (alookup c j).isSome = true := by
  rcases (isSome_aupdate_iff _ _ _).mp h with h1 | h1
  · exact isSome_dmDict_backward _ _ _ h1
  · exact Or.inl h1

theorem deep_merge_notdict (w v : Value) (h : notVDict v = true) : deep_merge w v = v := by
  cases v with
  | vdict d => simp [notVDict] at h
  | vnone => cases w <;> rfl
  | vbool b => cases w <;> rfl
  | vint n => cases w <;> rfl
  | vstr s => cases w <;> rfl
  | vlist xs => cases w <;> rfl

/-- In the fold of _merge, a non-mapping value supplied by the later argument
wins outright. -/
theorem pymergeOne_lookup_last {m c : Dict} {j : String} {v : Value}
    (hm : NodupKeys m) (hc : NodupKeys c) (hv : alookup c j = some v)
    (hnd : notVDict v = true) : alookup (pymergeOne m c) j = some v := by
  rw [alookup_pymergeOne _ _ _ hm hc, hv]
  cases hmj : alookup m j <;> simp [deep_merge_notdict _ _ hnd]

/-! ## Lemmas about the three loops of smart_update -/

theorem appendPhase_cons (mc rel : Dict) (key : String) (rest : List String) :
    appendPhase mc rel (key :: rest) =
      match alookup mc key with
      | some (.vlist cur) =>
        appendPhase
          (aset mc key (.vlist (cur ++ (getAsList rel key).filter (fun f => !(pyElem f cur)))))
          rel rest
      | _ => none := rfl

theorem dictPhase_cons (mc rel : Dict) (key : String) (rest : List String) :
    dictPhase mc rel (key :: rest) =
      match alookup mc key with
      | none => .perr
      | some (.vdict cur) =>
        match alookup rel key with
        | none => dictPhase mc rel rest
        | some dval =>
          match pyDictUpdate cur dval with
          | .okU cur2 => dictPhase (aset mc key (.vdict cur2)) rel rest
          | .errU cur2 => .cerr key (aset mc key (.vdict cur2))
          | .nonstrU => .nonstr
      | some _ => .cerr key mc := rfl

theorem clobberPhase_cons (mc rel : Dict) (key : String) (rest : List String) :
    clobberPhase mc rel (key :: rest) =
      match alookup rel key with
      | some v => clobberPhase (aset mc key v) rel rest
      | none => clobberPhase mc rel rest := rfl

theorem appendPhase_lookup_other :
    ∀ (keys : List String) (mc rel mc' : Dict) (j : String),
    appendPhase mc rel keys = some mc' → j ∉ keys → alookup mc' j = alookup mc j := by
  intro keys
  induction keys with
  | nil =>
    intro mc rel mc' j h hj
    simp only [appendPhase, Option.some.injEq] at h
    rw [← h]
  | cons key rest ih =>
    intro mc rel mc' j h hj
    have hjk : ¬ key = j := fun he => hj (he ▸ List.mem_cons_self _ _)
    have hjrest : j ∉ rest := fun hr => hj (List.mem_cons_of_mem _ hr)
    rw [appendPhase_cons] at h
    cases hmk : alookup mc key with
    | none => rw [hmk] at h; simp at h
    | some val =>
      rw [hmk] at h
      cases val with
      | vlist cur =>
        rw [ih _ _ _ _ h hjrest, alookup_aset, if_neg hjk]
      | vnone => simp at h
      | vbool b => simp at h
      | vint n => simp at h
      | vstr s => simp at h
      | vdict d => simp at h

theorem appendPhase_isSome_iff :
    ∀ (keys : List String) (mc rel mc' : Dict) (j : String),
    appendPhase mc rel keys = some mc' →
    ((alookup mc' j).isSome = true ↔ (alookup mc j).isSome = true) := by
  intro keys
  induction keys with
  | nil =>
    intro mc rel mc' j h
    simp only [appendPhase, Option.some.injEq] at h
    rw [← h]
  | cons key rest ih =>
    intro mc rel mc' j h
    rw [appendPhase_cons] at h
    cases hmk : alookup mc key with
    | none => rw [hmk] at h; simp at h
    | some val =>
      rw [hmk] at h
      cases val with
      | vlist cur =>
        rw [ih _ _ _ _ h, isSome_aset_iff]
        constructor
        · rintro (he | he)
          · subst he
            simp [hmk]
          · exact he
        · intro he
          exact Or.inr he
      | vnone => simp at h
      | vbool b => simp at h
      | vint n => simp at h
      | vstr s => simp at h
      | vdict d => simp at h

theorem appendPhase_nodup :
    ∀ (keys : List String) (mc rel mc' : Dict),
    appendPhase mc rel keys = some mc' → NodupKeys mc → NodupKeys mc' := by
  intro keys
  induction keys with
  | nil =>
    intro mc rel mc' h hnd
    simp only [appendPhase, Option.some.injEq] at h
    rw [← h]
    exact hnd
  | cons key rest ih =>
    intro mc rel mc' h hnd
    rw [appendPhase_cons] at h
    cases hmk : alookup mc key with
    | none => rw [hmk] at h; simp at h
    | some val =>
      rw [hmk] at h
      cases val with
      | vlist cur => exact ih _ _ _ h (nodupKeys_aset _ _ hnd)
      | vnone => simp at h
      | vbool b => simp at h
      | vint n => simp at h
      | vstr s => simp at h
      | vdict d => simp at h

theorem appendPhase_lookup_self :
    ∀ (keys : List String) (mc rel mc' : Dict) (k : String) (cur : List Value),
    keys.Nodup → k ∈ keys → alookup mc k = some (.vlist cur) →
    appendPhase mc rel keys = some mc' →
    alookup mc' k =
      some (.vlist (cur ++ (getAsList rel k).filter (fun f => !(pyElem f cur)))) := by
  intro keys
  induction keys with
  | nil => intro mc rel mc' k cur _ hk; cases hk
  | cons key rest ih =>
    intro mc rel mc' k cur hnd hk hcur h
    obtain ⟨hknr, hndrest⟩ := List.nodup_cons.mp hnd
    rw [appendPhase_cons] at h
    rcases List.mem_cons.mp hk with he | he
    · subst he
      rw [hcur] at h
      have hother := appendPhase_lookup_other _ _ _ _ _ h hknr
      rw [hother, alookup_aset, if_pos rfl]
    · have hkne : ¬ key = k := fun hkk => hknr (hkk ▸ he)
      cases hmk : alookup mc key with
      | none => rw [hmk] at h; simp at h
      | some val =>
        rw [hmk] at h
        cases val with
        | vlist cur2 =>
          refine ih _ _ _ _ _ hndrest he ?_ h
          rw [alookup_aset, if_neg hkne]
          exact hcur
        | vnone => simp at h
        | vbool b => simp at h
        | vint n => simp at h
        | vstr s => simp at h
        | vdict d => simp at h

theorem appendPhase_ok_of_lists :
    ∀ (keys : List String) (mc rel : Dict),
    (∀ j, j ∈ keys → ∃ lj, alookup mc j = some (.vlist lj)) →
    ∃ mc', appendPhase mc rel keys = some mc' := by
  intro keys
  induction keys with
  | nil => intro mc rel _; exact ⟨mc, rfl⟩
  | cons key rest ih =>
    intro mc rel hinv
    obtain ⟨cur, hcur⟩ := hinv key (List.mem_cons_self _ _)
    have hstep : ∀ j, j ∈ rest →
        ∃ lj, alookup (aset mc key
          (.vlist (cur ++ (getAsList rel key).filter (fun f => !(pyElem f cur))))) j
          = some (.vlist lj) := by
      intro j hj
      rw [alookup_aset]
      by_cases hkj : key = j
      · rw [if_pos hkj]
        exact ⟨_, rfl⟩
      · rw [if_neg hkj]
        exact hinv j (List.mem_cons_of_mem _ hj)
    obtain ⟨mc', hmc'⟩ := ih _ rel hstep
    refine ⟨mc', ?_⟩
    rw [appendPhase_cons, hcur]
    exact hmc'

theorem dictPhase_lookup_other :
    ∀ (keys : List String) (mc rel mc' : Dict) (j : String),
    dictPhase mc rel keys = .ok mc' → j ∉ keys → alookup mc' j = alookup mc j := by
  intro keys
  induction keys with
  | nil =>
    intro mc rel mc' j h hj
    cases h
    rfl
  | cons key rest ih =>
    intro mc rel mc' j h hj
    have hjk : ¬ key = j := fun he => hj (he ▸ List.mem_cons_self _ _)
    have hjrest : j ∉ rest := fun hr => hj (List.mem_cons_of_mem _ hr)
    rw [dictPhase_cons] at h
    cases hmk : alookup mc key <;> rw [hmk] at h
    · simp at h
    · rename_i val
      cases val with
      | vdict cur =>
        cases hrk : alookup rel key
        · rw [hrk] at h
          exact ih _ _ _ _ h hjrest
        · rename_i w
          simp only [hrk] at h
          cases hup : pyDictUpdate cur w <;> rw [hup] at h
          · rename_i cur2
            rw [ih _ _ _ _ h hjrest, alookup_aset, if_neg hjk]
          · simp at h
          · simp at h
      | vnone => simp at h
      | vbool b => simp at h
      | vint n => simp at h
      | vstr s => simp at h
      | vlist xs => simp at h

theorem dictPhase_isSome_iff :
    ∀ (keys : List String) (mc rel mc' : Dict) (j : String),
    dictPhase mc rel keys = .ok mc' →
    ((alookup mc' j).isSome = true ↔ (alookup mc j).isSome = true) := by
  intro keys
  induction keys with
  | nil =>
    intro mc rel mc' j h
    cases h
    rfl
  | cons key rest ih =>
    intro mc rel mc' j h
    rw [dictPhase_cons] at h
    cases hmk : alookup mc key <;> rw [hmk] at h
    · simp at h
    · rename_i val
      cases val with
      | vdict cur =>
        cases hrk : alookup rel key
        · rw [hrk] at h
          exact ih _ _ _ _ h
        · rename_i w
          simp only [hrk] at h
          cases hup : pyDictUpdate cur w <;> rw [hup] at h
          · rename_i cur2
            rw [ih _ _ _ _ h, isSome_aset_iff]
            constructor
            · rintro (he | he)
              · subst he
                simp [hmk]
              · exact he
            · intro he
              exact Or.inr he
          · simp at h
          · simp at h
      | vnone => simp at h
      | vbool b => simp at h
      | vint n => simp at h
      | vstr s => simp at h
      | vlist xs => simp at h

theorem dictPhase_nodup :
    ∀ (keys : List String) (mc rel mc' : Dict),
    dictPhase mc rel keys = .ok mc' → NodupKeys mc → NodupKeys mc' := by
  intro keys
  induction keys with
  | nil =>
    intro mc rel mc' h hnd
    cases h
    exact hnd
  | cons key rest ih =>
    intro mc rel mc' h hnd
    rw [dictPhase_cons] at h
    cases hmk : alookup mc key <;> rw [hmk] at h
    · simp at h
    · rename_i val
      cases val with
      | vdict cur =>
        cases hrk : alookup rel key
        · rw [hrk] at h
          exact ih _ _ _ h hnd
        · rename_i w
          simp only [hrk] at h
          cases hup : pyDictUpdate cur w <;> rw [hup] at h
          · exact ih _ _ _ h (nodupKeys_aset _ _ hnd)
          · simp at h
          · simp at h
      | vnone => simp at h
      | vbool b => simp at h
      | vint n => simp at h
      | vstr s => simp at h
      | vlist xs => simp at h

theorem dictPhase_cerr :
    ∀ (keys : List String) (mc rel mc' : Dict) (f : String),
    dictPhase mc rel keys = .cerr f mc' → f ∈ keys := by
  intro keys
  induction keys with
  | nil =>
    intro mc rel mc' f h
    simp [dictPhase] at h
  | cons key rest ih =>
    intro mc rel mc' f h
    rw [dictPhase_cons] at h
    cases hmk : alookup mc key <;> rw [hmk] at h
    · simp at h
    · rename_i val
      cases val with
      | vdict cur =>
        cases hrk : alookup rel key
        · rw [hrk] at h
          exact List.mem_cons_of_mem _ (ih _ _ _ _ h)
        · rename_i w
          simp only [hrk] at h
          cases hup : pyDictUpdate cur w <;> rw [hup] at h
          · exact List.mem_cons_of_mem _ (ih _ _ _ _ h)
          · injection h with h1 h2
            subst h1
            exact List.mem_cons_self _ _
          · simp at h
      | vnone =>
        injection h with h1 h2
        subst h1
        exact List.mem_cons_self _ _
      | vbool b =>
        injection h with h1 h2
        subst h1
        exact List.mem_cons_self _ _
      | vint n =>
        injection h with h1 h2
        subst h1
        exact List.mem_cons_self _ _
      | vstr s =>
        injection h with h1 h2
        subst h1
        exact List.mem_cons_self _ _
      | vlist xs =>
        injection h with h1 h2
        subst h1
        exact List.mem_cons_self _ _

theorem dictPhase_ne_perr :
    ∀ (keys : List String) (mc rel : Dict),
    (∀ j, j ∈ keys → ∃ dj, alookup mc j = some (.vdict dj)) →
    dictPhase mc rel keys ≠ .perr := by
  intro keys
  induction keys with
  | nil =>
    intro mc rel _ h
    simp [dictPhase] at h
  | cons key rest ih =>
    intro mc rel hinv
    obtain ⟨cur, hcur⟩ := hinv key (List.mem_cons_self _ _)
    rw [dictPhase_cons, hcur]
    cases hrk : alookup rel key
    · exact ih _ _ (fun j hj => hinv j (List.mem_cons_of_mem _ hj))
    · rename_i w
      cases hup : pyDictUpdate cur w with
      | okU cur2 =>
        simp only [hup]
        apply ih
        intro j hj
        rw [alookup_aset]
        by_cases hkj : key = j
        · rw [if_pos hkj]
          exact ⟨_, rfl⟩
        · rw [if_neg hkj]
          exact hinv j (List.mem_cons_of_mem _ hj)
      | errU cur2 => simp [hup]
      | nonstrU => simp [hup]

theorem clobberPhase_lookup_other :
    ∀ (keys : List String) (mc rel : Dict) (j : String),
    j ∉ keys → alookup (clobberPhase mc rel keys) j = alookup mc j := by
  intro keys
  induction keys with
  | nil => intro mc rel j _; rfl
  | cons key rest ih =>
    intro mc rel j hj
    have hjk : ¬ key = j := fun he => hj (he ▸ List.mem_cons_self _ _)
    have hjrest : j ∉ rest := fun hr => hj (List.mem_cons_of_mem _ hr)
    rw [clobberPhase_cons]
    cases hrk : alookup rel key
    · exact ih _ _ _ hjrest
    · rw [ih _ _ _ hjrest, alookup_aset, if_neg hjk]

theorem clobberPhase_lookup_norel :
    ∀ (keys : List String) (mc rel : Dict) (j : String),
    alookup rel j = none → alookup (clobberPhase mc rel keys) j = alookup mc j := by
  intro keys
  induction keys with
  | nil => intro mc rel j _; rfl
  | cons key rest ih =>
    intro mc rel j hrj
    rw [clobberPhase_cons]
    cases hrk : alookup rel key
    · exact ih _ _ _ hrj
    · have hjk : ¬ key = j := fun he => by
        subst he
        rw [hrj] at hrk
        cases hrk
      rw [ih _ _ _ hrj, alookup_aset, if_neg hjk]

theorem clobberPhase_isSome_mono :
    ∀ (keys : List String) (mc rel : Dict) (j : String),
    (alookup mc j).isSome = true → (alookup (clobberPhase mc rel keys) j).isSome = true := by
  intro keys
  induction keys with
  | nil => intro mc rel j h; exact h
  | cons key rest ih =>
    intro mc rel j h
    rw [clobberPhase_cons]
    cases hrk : alookup rel key
    · exact ih _ _ _ h
    · exact ih _ _ _ ((isSome_aset_iff _ _ _ _).mpr (Or.inr h))

theorem clobberPhase_isSome_backward :
    ∀ (keys : List String) (mc rel : Dict) (j : String),
    (alookup (clobberPhase mc rel keys) j).isSome = true →
    (alookup mc j).isSome = true ∨ (alookup rel j).isSome = true := by
  intro keys
  induction keys with
  | nil => intro mc rel j h; exact Or.inl h
  | cons key rest ih =>
    intro mc rel j h
    rw [clobberPhase_cons] at h
    cases hrk : alookup rel key <;> rw [hrk] at h
    · exact ih _ _ _ h
    · rcases ih _ _ _ h with h1 | h1
      · rcases (isSome_aset_iff _ _ _ _).mp h1 with h2 | h2
        · subst h2
          simp [hrk]
        · exact Or.inl h2
      · exact Or.inr h1

theorem clobberPhase_nodup :
    ∀ (keys : List String) (mc rel : Dict),
    NodupKeys mc → NodupKeys (clobberPhase mc rel keys) := by
  intro keys
  induction keys with
  | nil => intro mc rel h; exact h
  | cons key rest ih =>
    intro mc rel h
    rw [clobberPhase_cons]
    cases alookup rel key
    · exact ih _ _ h
    · exact ih _ _ (nodupKeys_aset _ _ h)

theorem clobberPhase_nil_rel :
    ∀ (keys : List String) (mc : Dict), clobberPhase mc [] keys = mc := by
  intro keys
  induction keys with
  | nil => intro mc; rfl
  | cons key rest ih =>
    intro mc
    rw [clobberPhase_cons]
    exact ih mc

/-! ## The field classification sets -/

theorem mem_append_fields {k : String} (h : k ∈ AppendListFields) :
    k = "pre-hook" ∨ k = "post-hook" ∨ k = "tags" := by
  simpa [AppendListFields] using h

theorem mem_extend_fields {k : String} (h : k ∈ ExtendDictFields) :
    k = "vars" ∨ k = "column_types" ∨ k = "quoting" ∨ k = "persist_docs" := by
  simpa [ExtendDictFields] using h

theorem append_not_extend {k : String} (h : k ∈ AppendListFields) : k ∉ ExtendDictFields := by
  rcases mem_append_fields h with h | h | h <;> subst h <;> decide

theorem append_not_clobber {k : String} (h : k ∈ AppendListFields) : k ∉ ClobberFields := by
  rcases mem_append_fields h with h | h | h <;> subst h <;> decide

theorem extend_not_append {k : String} (h : k ∈ ExtendDictFields) : k ∉ AppendListFields := by
  rcases mem_extend_fields h with h | h | h | h <;> subst h <;> decide

theorem extend_not_clobber {k : String} (h : k ∈ ExtendDictFields) : k ∉ ClobberFields := by
  rcases mem_extend_fields h with h | h | h | h <;> subst h <;> decide

theorem append_contains {j : String} (h : j ∈ AppendListFields) :
    AppendListFields.contains j = true := by
  rcases mem_append_fields h with h | h | h <;> subst h <;> decide

theorem extend_contains {j : String} (h : j ∈ ExtendDictFields) :
    ExtendDictFields.contains j = true := by
  rcases mem_extend_fields h with h | h | h | h <;> subst h <;> decide

theorem append_nodup : AppendListFields.Nodup := by decide

theorem extend_nodup : ExtendDictFields.Nodup := by decide

theorem append_mem_configKeys (adapter : List String) {k : String}
    (h : k ∈ AppendListFields) : k ∈ configKeysWith adapter := by
  simp only [configKeysWith, ConfigKeys, List.mem_append]
  tauto

theorem extend_mem_configKeys (adapter : List String) {k : String}
    (h : k ∈ ExtendDictFields) : k ∈ configKeysWith adapter := by
  simp only [configKeysWith, ConfigKeys, List.mem_append]
  tauto

theorem clobber_mem_configKeys (adapter : List String) {k : String}
    (h : k ∈ ClobberFields) : k ∈ configKeysWith adapter := by
  simp only [configKeysWith, ConfigKeys, List.mem_append]
  tauto

theorem notMem_configKeys {adapter : List String} {k : String}
    (h : k ∉ configKeysWith adapter) :
    k ∉ AppendListFields ∧ k ∉ ExtendDictFields ∧ k ∉ ClobberFields ∧ k ∉ adapter := by
  simp only [configKeysWith, ConfigKeys, List.mem_append] at h
  tauto

/-! ## Lemmas about smart_update as a whole -/

theorem alookup_filterRecognized (adapter : List String) (d : Dict) (j : String) :
    alookup (filterRecognized adapter d) j =
      if j ∈ configKeysWith adapter then alookup d j else none := by
  induction d with
  | nil => simp [filterRecognized, alookup]
  | cons kv rest ih =>
    obtain ⟨k, v⟩ := kv
    by_cases hk : k ∈ configKeysWith adapter
    · by_cases hj : k = j
      · subst hj
        simp [filterRecognized, List.filter_cons, hk, alookup]
      · simp only [filterRecognized, List.filter_cons] at ih ⊢
        simp [hk, alookup, hj, ih]
    · by_cases hj : k = j
      · subst hj
        simp only [filterRecognized, List.filter_cons] at ih ⊢
        simp [hk, alookup, ih]
      · simp only [filterRecognized, List.filter_cons] at ih ⊢
        simp [hk, alookup, hj, ih]

theorem isSome_alookup_filter {p : String × Value → Bool} :
    ∀ (d : Dict) (j : String),
    (alookup (d.filter p) j).isSome = true → (alookup d j).isSome = true := by
  intro d
  induction d with
  | nil => intro j h; simp [alookup] at h
  | cons kv rest ih =>
    intro j h
    obtain ⟨k, v⟩ := kv
    by_cases hj : k = j
    · subst hj
      simp [alookup]
    · rw [List.filter_cons] at h
      cases hp : p (k, v) <;> rw [hp] at h
      · simpa [alookup, hj] using ih j h
      · simp only [alookup, if_neg hj] at h ⊢
        exact ih j h

theorem relevantOf_isSome {adapter : List String} {nc : Value} {rel : Dict} {j : String}
    (h : relevantOf adapter nc = some rel) (hj : (alookup rel j).isSome = true) :
    j ∈ dictKeysOf nc := by
  cases nc with
  | vdict d =>
    simp only [relevantOf, Option.some.injEq] at h
    subst h
    exact (alookup_isSome_iff _ _).mp (isSome_alookup_filter _ _ hj)
  | vnone => simp [relevantOf] at h
  | vbool b => simp [relevantOf] at h
  | vint n => simp [relevantOf] at h
  | vstr s =>
    simp only [relevantOf] at h
    cases hc : s.toList.any (fun c => decide (String.mk [c] ∈ configKeysWith adapter)) <;>
      rw [hc] at h <;> simp at h
    subst h
    simp [alookup] at hj
  | vlist xs =>
    simp only [relevantOf] at h
    cases hc : xs.any (fun x =>
        match x with
        | .vlist _ => true
        | .vdict _ => true
        | .vstr k => decide (k ∈ configKeysWith adapter)
        | _ => false) <;> rw [hc] at h <;> simp at h
    subst h
    simp [alookup] at hj

theorem smart_update_ok_components {adapter : List String} {mc : Dict} {nc : Value}
    {mc' rel : Dict} (h : smart_update adapter mc nc = .ok mc' rel) :
    ∃ mc1 mc2, relevantOf adapter nc = some rel ∧
      appendPhase mc rel AppendListFields = some mc1 ∧
      dictPhase mc1 rel ExtendDictFields = .ok mc2 ∧
      mc' = clobberPhase mc2 rel (ClobberFields ++ adapter) := by
  unfold smart_update at h
  split at h
  · simp at h
  · rename_i relv hr
    split at h
    · simp at h
    · rename_i mc1 hap
      split at h
      · simp at h
      · simp at h
      · simp at h
      · rename_i mc2 hdp
        injection h with h1 h2
        subst h2
        exact ⟨mc1, mc2, hr, hap, hdp, h1.symm⟩

theorem smart_update_isSome_mono {adapter : List String} {mc : Dict} {nc : Value}
    {mc' rel : Dict} {j : String} (h : smart_update adapter mc nc = .ok mc' rel)
    (hj : (alookup mc j).isSome = true) : (alookup mc' j).isSome = true := by
  obtain ⟨mc1, mc2, _, hap, hdp, hcl⟩ := smart_update_ok_components h
  subst hcl
  exact clobberPhase_isSome_mono _ _ _ _
    ((dictPhase_isSome_iff _ _ _ _ _ hdp).mpr
      ((appendPhase_isSome_iff _ _ _ _ _ hap).mpr hj))

theorem smart_update_isSome_backward {adapter : List String} {mc : Dict} {nc : Value}
    {mc' rel : Dict} {j : String} (h : smart_update adapter mc nc = .ok mc' rel)
    (hj : (alookup mc' j).isSome = true) :
    (alookup mc j).isSome = true ∨ (alookup rel j).isSome = true := by
  obtain ⟨mc1, mc2, _, hap, hdp, hcl⟩ := smart_update_ok_components h
  subst hcl
  rcases clobberPhase_isSome_backward _ _ _ _ hj with h1 | h1
  · exact Or.inl ((appendPhase_isSome_iff _ _ _ _ _ hap).mp
      ((dictPhase_isSome_iff _ _ _ _ _ hdp).mp h1))
  · exact Or.inr h1

theorem smart_update_nodup {adapter : List String} {mc : Dict} {nc : Value}
    {mc' rel : Dict} (h : smart_update adapter mc nc = .ok mc' rel)
    (hnd : NodupKeys mc) : NodupKeys mc' := by
  obtain ⟨mc1, mc2, _, hap, hdp, hcl⟩ := smart_update_ok_components h
  subst hcl
  exact clobberPhase_nodup _ _ _
    (dictPhase_nodup _ _ _ _ hdp (appendPhase_nodup _ _ _ _ hap hnd))

theorem smart_update_lookup_other {adapter : List String} {mc : Dict} {nc : Value}
    {mc' rel : Dict} {j : String} (h : smart_update adapter mc nc = .ok mc' rel)
    (h1 : j ∉ AppendListFields) (h2 : j ∉ ExtendDictFields)
    (h3 : alookup rel j = none) : alookup mc' j = alookup mc j := by
  obtain ⟨mc1, mc2, _, hap, hdp, hcl⟩ := smart_update_ok_components h
  subst hcl
  rw [clobberPhase_lookup_norel _ _ _ _ h3, dictPhase_lookup_other _ _ _ _ _ hdp h2,
    appendPhase_lookup_other _ _ _ _ _ hap h1]

/-- The accumulator entry of an append field after a successful smart_update:
the previous sequence, extended with the recognized contribution's elements
that were not already present, in order. -/
theorem smart_update_append_entry {adapter : List String} {mc nc : Dict}
    {k : String} {cur : List Value} {mc' rel : Dict}
    (hk : k ∈ AppendListFields) (hka : k ∉ adapter)
    (hcur : alookup mc k = some (.vlist cur))
    (h : smart_update adapter mc (.vdict nc) = .ok mc' rel) :
    alookup mc' k = some (.vlist (cur ++
      (getAsList (filterRecognized adapter nc) k).filter (fun f => !(pyElem f cur)))) := by
  obtain ⟨mc1, mc2, hr, hap, hdp, hcl⟩ := smart_update_ok_components h
  have hrel : rel = filterRecognized adapter nc := by
    simpa [relevantOf] using hr.symm
  subst hcl
  subst hrel
  rw [clobberPhase_lookup_other _ _ _ _
      (fun hm => (List.mem_append.mp hm).elim (append_not_clobber hk) hka),
    dictPhase_lookup_other _ _ _ _ _ hdp (append_not_extend hk),
    appendPhase_lookup_self _ _ _ _ _ _ append_nodup hk hcur hap]

/-! ## Lemmas about get_project_config -/

theorem gpInit_keys : gpInit.map Prod.fst = AppendListFields ++ ExtendDictFields := rfl

theorem gpInit_isSome_iff (j : String) :
    (alookup gpInit j).isSome = true ↔ (j ∈ AppendListFields ∨ j ∈ ExtendDictFields) := by
  rw [alookup_isSome_iff, gpInit_keys, List.mem_append]

theorem alookup_gpInit_append {k : String} (h : k ∈ AppendListFields) :
    alookup gpInit k = some (.vlist []) := by
  rcases mem_append_fields h with h | h | h <;> subst h <;> rfl

theorem alookup_gpInit_extend {k : String} (h : k ∈ ExtendDictFields) :
    alookup gpInit k = some (.vdict []) := by
  rcases mem_extend_fields h with h | h | h | h <;> subst h <;> rfl

theorem gpInit_nodup : NodupKeys gpInit := by
  show (gpInit.map Prod.fst).Nodup
  decide

theorem gpLoop_cons (adapter : List String) (config : Dict) (m : Value)
    (level : String) (rest : List String) :
    gpLoop adapter config m (level :: rest) =
      match asDict m with
      | none => .perr
      | some d =>
        match alookup d level with
        | none => .ok config
        | some lc =>
          if isNoneV lc then .ok config
          else
            match smart_update adapter config lc with
            | .perr => .perr
            | .cerr f _ => .cerr f
            | .nonstr => .nonstr
            | .ok c1 relevant => gpLoop adapter (aupdate c1 (gpClobber relevant)) lc rest := rfl

theorem gpLoop_isSome_mono :
    ∀ (fqn adapter : List String) (config : Dict) (m : Value) (cfg : Dict) (j : String),
    gpLoop adapter config m fqn = .ok cfg → (alookup config j).isSome = true →
    (alookup cfg j).isSome = true := by
  intro fqn
  induction fqn with
  | nil =>
    intro adapter config m cfg j h hj
    cases h
    exact hj
  | cons level rest ih =>
    intro adapter config m cfg j h hj
    rw [gpLoop_cons] at h
    split at h
    · simp at h
    · split at h
      · cases h
        exact hj
      · split at h
        · cases h
          exact hj
        · split at h
          · simp at h
          · simp at h
          · simp at h
          · rename_i c1 relevant hsu
            exact ih _ _ _ _ _ h
              ((isSome_aupdate_iff _ _ _).mpr (Or.inr (smart_update_isSome_mono hsu hj)))

theorem gpLoop_isSome_backward :
    ∀ (fqn adapter : List String) (config : Dict) (m : Value) (cfg : Dict) (j : String),
    gpLoop adapter config m fqn = .ok cfg → (alookup cfg j).isSome = true →
    (alookup config j).isSome = true ∨ j ∈ gpVisitedKeys m fqn := by
  intro fqn
  induction fqn with
  | nil =>
    intro adapter config m cfg j h hj
    cases h
    exact Or.inl hj
  | cons level rest ih =>
    intro adapter config m cfg j h hj
    rw [gpLoop_cons] at h
    split at h
    · simp at h
    · rename_i d hd
      split at h
      · cases h
        exact Or.inl hj
      · rename_i lc hl
        split at h
        · cases h
          exact Or.inl hj
        · rename_i hn
          split at h
          · simp at h
          · simp at h
          · simp at h
          · rename_i c1 relevant hsu
            have hred : gpVisitedKeys m (level :: rest) =
                dictKeysOf lc ++ gpVisitedKeys lc rest := by
              simp only [gpVisitedKeys, hd, hl]
              rw [if_neg hn]
            rcases ih _ _ _ _ _ h hj with h1 | h1
            · rcases (isSome_aupdate_iff _ _ _).mp h1 with h2 | h2
              · have h3 : (alookup relevant j).isSome = true :=
                  isSome_alookup_filter _ _ h2
                obtain ⟨mc1, mc2, hrel, _, _, _⟩ := smart_update_ok_components hsu
                right
                rw [hred]
                exact List.mem_append.mpr (Or.inl (relevantOf_isSome hrel h3))
              · rcases smart_update_isSome_backward hsu h2 with h3 | h3
                · exact Or.inl h3
                · obtain ⟨mc1, mc2, hrel, _, _, _⟩ := smart_update_ok_components hsu
                  right
                  rw [hred]
                  exact List.mem_append.mpr (Or.inl (relevantOf_isSome hrel h3))
            · right
              rw [hred]
              exact List.mem_append.mpr (Or.inr h1)

theorem gpLoop_nodup :
    ∀ (fqn adapter : List String) (config : Dict) (m : Value) (cfg : Dict),
    gpLoop adapter config m fqn = .ok cfg → NodupKeys config → NodupKeys cfg := by
  intro fqn
  induction fqn with
  | nil =>
    intro adapter config m cfg h hnd
    cases h
    exact hnd
  | cons level rest ih =>
    intro adapter config m cfg h hnd
    rw [gpLoop_cons] at h
    split at h
    · simp at h
    · split at h
      · cases h
        exact hnd
      · split at h
        · cases h
          exact hnd
        · split at h
          · simp at h
          · simp at h
          · simp at h
          · rename_i c1 relevant hsu
            exact ih _ _ _ _ h (nodupKeys_aupdate _ (smart_update_nodup hsu hnd))

theorem gp_ok_isSome_init {adapter fqn : List String} {nt : NodeType} {p : Project}
    {cfg : Dict} {j : String} (h : get_project_config adapter fqn nt p = .ok cfg)
    (hj : (alookup gpInit j).isSome = true) : (alookup cfg j).isSome = true := by
  simp only [get_project_config] at h
  split at h
  · cases h
    exact hj
  · split at h
    · simp at h
    · simp at h
    · simp at h
    · rename_i c1 rel hsu
      exact gpLoop_isSome_mono _ _ _ _ _ _ h (smart_update_isSome_mono hsu hj)

theorem gp_ok_isSome_backward {adapter fqn : List String} {nt : NodeType} {p : Project}
    {cfg : Dict} {j : String} (h : get_project_config adapter fqn nt p = .ok cfg)
    (hj : (alookup cfg j).isSome = true) :
    (alookup gpInit j).isSome = true ∨ j ∈ gpSupplied nt fqn p := by
  simp only [get_project_config] at h
  split at h
  · cases h
    exact Or.inl hj
  · split at h
    · simp at h
    · simp at h
    · simp at h
    · rename_i c1 rel hsu
      rcases gpLoop_isSome_backward _ _ _ _ _ _ h hj with h1 | h1
      · rcases smart_update_isSome_backward hsu h1 with h2 | h2
        · exact Or.inl h2
        · obtain ⟨mc1, mc2, hrel, _, _, _⟩ := smart_update_ok_components hsu
          right
          simp only [gpSupplied]
          exact List.mem_append.mpr (Or.inl (relevantOf_isSome hrel h2))
      · right
        simp only [gpSupplied]
        exact List.mem_append.mpr (Or.inr h1)

theorem gp_ok_nodup {adapter fqn : List String} {nt : NodeType} {p : Project}
    {cfg : Dict} (h : get_project_config adapter fqn nt p = .ok cfg) : NodupKeys cfg := by
  simp only [get_project_config] at h
  split at h
  · cases h
    exact gpInit_nodup
  · split at h
    · simp at h
    · simp at h
    · simp at h
    · rename_i c1 rel hsu
      exact gpLoop_nodup _ _ _ _ _ h (smart_update_nodup hsu gpInit_nodup)

theorem gp_none_tree {adapter fqn : List String} {nt : NodeType} {p : Project}
    (h : isNoneV (treeFor nt p) = true) :
    get_project_config adapter fqn nt p = .ok gpInit := by
  simp [get_project_config, h]

theorem smart_update_empty (adapter : List String) :
    smart_update adapter gpInit (.vdict []) = .ok gpInit [] := by
  have h1 : relevantOf adapter (.vdict []) = some [] := rfl
  have h2 : appendPhase gpInit [] AppendListFields = some gpInit := rfl
  have h3 : dictPhase gpInit [] ExtendDictFields = .ok gpInit := rfl
  simp only [smart_update, h1, h2, h3]
  rw [clobberPhase_nil_rel]

theorem gpLoop_empty_dict (adapter : List String) (config : Dict) :
    ∀ fqn : List String, gpLoop adapter config (.vdict []) fqn = .ok config := by
  intro fqn
  cases fqn with
  | nil => rfl
  | cons level rest => rfl

theorem gp_empty_tree {adapter fqn : List String} {nt : NodeType} {p : Project}
    (h : treeFor nt p = .vdict []) :
    get_project_config adapter fqn nt p = .ok gpInit := by
  simp only [get_project_config, h]
  rw [if_neg (by decide), smart_update_empty]
  exact gpLoop_empty_dict adapter gpInit fqn

/-! ## Lemmas about the config property -/

theorem nodupKeys_nil : NodupKeys [] := List.nodup_nil

theorem pymerge_three (x y z : Dict) :
    pymerge [x, y, z] = pymergeOne (pymergeOne (pymergeOne [] x) y) z := rfl

theorem pymerge_four (w x y z : Dict) :
    pymerge [w, x, y, z] = pymergeOne (pymergeOne (pymergeOne (pymergeOne [] w) x) y) z := rfl

theorem defaults_enabled (nt : NodeType) :
    alookup (defaultsFor nt) "enabled" = some (.vbool true) := by
  cases nt <;> rfl

theorem defaults_materialized (nt : NodeType) :
    (alookup (defaultsFor nt) "materialized").isSome = true := by
  cases nt <;> rfl

/-- Structure of a successful resolve: the active contribution is computed,
and the result is one of the two merge chains depending on name equality. -/
theorem config_ok_components {r : Resolver} {cfg : Dict}
    (h : SourceConfig.config r = .ok cfg) :
    ∃ active,
      get_project_config r.AdapterSpecificConfigs r.fqn r.node_type r.active_project
        = .ok active ∧
      ((r.active_project.project_name = r.own_project.project_name ∧
          cfg = pymerge [defaultsFor r.node_type, active, r.in_model_config]) ∨
       (¬ r.active_project.project_name = r.own_project.project_name ∧
        ∃ own,
          get_project_config r.AdapterSpecificConfigs r.fqn r.node_type r.own_project
            = .ok own ∧
          cfg = pymerge [defaultsFor r.node_type, own, r.in_model_config, active])) := by
  simp only [SourceConfig.config] at h
  split at h
  · simp at h
  · simp at h
  · simp at h
  · rename_i active hact
    split at h
    · rename_i hname
      cases h
      exact ⟨active, hact, Or.inl ⟨hname, rfl⟩⟩
    · rename_i hname
      split at h
      · simp at h
      · simp at h
      · simp at h
      · rename_i own hown
        cases h
        exact ⟨active, hact, Or.inr ⟨hname, own, hown, rfl⟩⟩

/-! ## Lemmas about the heap embedding -/

theorem readObj_writeObj_ne :
    ∀ (σ : Store) (a b : Nat) (o : HObj), ¬ a = b →
    readObj (writeObj σ a o) b = readObj σ b := by
  intro σ
  induction σ with
  | nil => intro a b o _; rfl
  | cons x xs ih =>
    intro a b o hab
    cases a with
    | zero =>
      cases b with
      | zero => exact absurd rfl hab
      | succ b => rfl
    | succ a =>
      cases b with
      | zero => rfl
      | succ b => exact ih a b o (fun he => hab (by rw [he]))

theorem readObj_append_low :
    ∀ (σ tail : Store) (b : Nat), b < σ.length →
    readObj (σ ++ tail) b = readObj σ b := by
  intro σ
  induction σ with
  | nil => intro tail b hb; simp at hb
  | cons x xs ih =>
    intro tail b hb
    cases b with
    | zero => rfl
    | succ b => exact ih tail b (Nat.lt_of_succ_lt_succ hb)

theorem allocManyStore_low :
    ∀ (items : List (String × HObj)) (σ : Store) (b : Nat), b < σ.length →
    readObj (allocManyStore σ items) b = readObj σ b := by
  intro items
  induction items with
  | nil => intro σ b _; rfl
  | cons ko rest ih =>
    intro σ b hb
    obtain ⟨k, o⟩ := ko
    show readObj (allocManyStore (σ ++ [o]) rest) b = readObj σ b
    rw [ih (σ ++ [o]) b (by rw [List.length_append]; omega)]
    exact readObj_append_low σ [o] b hb

theorem allocManyDict_fresh :
    ∀ (items : List (String × HObj)) (σ : Store) (k : String) (a : Nat),
    alookupH (allocManyDict σ items) k = some (.href a) → σ.length ≤ a := by
  intro items
  induction items with
  | nil => intro σ k a h; simp [allocManyDict, alookupH] at h
  | cons ko rest ih =>
    intro σ k a h
    obtain ⟨k0, o⟩ := ko
    simp only [allocManyDict, alookupH] at h
    by_cases hk : k0 = k
    · rw [if_pos hk] at h
      injection h with h1
      injection h1 with h2
      omega
    · rw [if_neg hk] at h
      have hge := ih (σ ++ [o]) k a h
      rw [List.length_append] at hge
      omega

theorem alookupH_asetH (d : HDict) (key : String) (val : HVal) (j : String) :
    alookupH (asetH d key val) j = if key = j then some val else alookupH d j := by
  induction d with
  | nil => by_cases hj : key = j <;> simp [asetH, alookupH, hj]
  | cons kv rest ih =>
    obtain ⟨k, v⟩ := kv
    by_cases hk : k = key
    · subst hk
      by_cases hj : k = j <;> simp [asetH, alookupH, hj]
    · by_cases hj : k = j
      · subst hj
        have hkj : ¬ key = k := fun h => hk h.symm
        simp [asetH, hk, alookupH, hkj]
      · simp [asetH, hk, alookupH, hj, ih]

theorem aupdateH_lookup_none :
    ∀ (src d : HDict) (j : String), alookupH src j = none →
    alookupH (aupdateH d src) j = alookupH d j := by
  intro src
  induction src with
  | nil => intro d j _; rfl
  | cons kv rest ih =>
    intro d j h
    obtain ⟨k, v⟩ := kv
    simp only [alookupH] at h
    by_cases hk : k = j
    · rw [if_pos hk] at h
      cases h
    · rw [if_neg hk] at h
      show alookupH (aupdateH (asetH d k v) rest) j = alookupH d j
      rw [ih _ j h, alookupH_asetH, if_neg hk]

theorem alookupH_filter_false :
    ∀ (src : HDict) (p : String × HVal → Bool) (j : String),
    (∀ v, p (j, v) = false) → alookupH (src.filter p) j = none := by
  intro src
  induction src with
  | nil => intro p j _; rfl
  | cons kv rest ih =>
    intro p j hp
    obtain ⟨k, v⟩ := kv
    rw [List.filter_cons]
    by_cases hk : k = j
    · subst hk
      rw [if_neg (by rw [hp v]; exact Bool.false_ne_true)]
      exact ih p _ hp
    · by_cases hpk : p (k, v) = true
      · rw [if_pos hpk]
        simp only [alookupH, if_neg hk]
        exact ih p j hp
      · rw [if_neg hpk]
        exact ih p j hp

theorem hClobberCfgs_lookup_ae (relevant : HDict) (j : String)
    (hj : j ∈ AppendListFields ∨ j ∈ ExtendDictFields) :
    alookupH (hClobberCfgs relevant) j = none := by
  unfold hClobberCfgs
  apply alookupH_filter_false
  intro v
  show (!(AppendListFields.contains j) && !(ExtendDictFields.contains j)) = false
  rcases hj with hj | hj
  · rw [append_contains hj, show (!true) = false from rfl, Bool.false_and]
  · rw [extend_contains hj, show (!true) = false from rfl, Bool.and_false]

theorem heapClobberPhase_cons (config relevant : HDict) (key : String) (rest : List String) :
    heapClobberPhase config relevant (key :: rest) =
      match alookupH relevant key with
      | some v => heapClobberPhase (asetH config key v) relevant rest
      | none => heapClobberPhase config relevant rest := rfl

theorem heapClobberPhase_lookup_other :
    ∀ (keys : List String) (config relevant : HDict) (j : String),
    j ∉ keys → alookupH (heapClobberPhase config relevant keys) j = alookupH config j := by
  intro keys
  induction keys with
  | nil => intro config relevant j _; rfl
  | cons key rest ih =>
    intro config relevant j hj
    have hjk : ¬ key = j := fun he => hj (he ▸ List.mem_cons_self _ _)
    have hjrest : j ∉ rest := fun hr => hj (List.mem_cons_of_mem _ hr)
    rw [heapClobberPhase_cons]
    cases hrk : alookupH relevant key
    · exact ih _ _ _ hjrest
    · rw [ih _ _ _ hjrest, alookupH_asetH, if_neg hjk]

theorem heapAppendPhase_cons (σ : Store) (config relevant : HDict) (key : String)
    (rest : List String) :
    heapAppendPhase σ config relevant (key :: rest) =
      match alookupH config key with
      | some (.href a) =>
        match readObj σ a with
        | some (.hlist cur) =>
          match heapGetAsList σ relevant key with
          | .ok items =>
            heapAppendPhase
              (writeObj σ a (.hlist (cur ++ items.filter (fun f => !(hElem σ f cur)))))
              config relevant rest
          | .error e => (σ, some e)
        | some (.hdict _) => (σ, some .perr)
        | none => (σ, some .ill)
      | some _ => (σ, some .perr)
      | none => (σ, some .perr) := rfl

theorem heapDictPhase_cons (σ : Store) (config relevant : HDict) (key : String)
    (rest : List String) :
    heapDictPhase σ config relevant (key :: rest) =
      match alookupH config key with
      | some (.href a) =>
        match readObj σ a with
        | some (.hdict cur) =>
          match alookupH relevant key with
          | none => heapDictPhase σ config relevant rest
          | some dval =>
            match hDictUpdate σ cur dval with
            | .okU cur2 => heapDictPhase (writeObj σ a (.hdict cur2)) config relevant rest
            | .errU cur2 => (writeObj σ a (.hdict cur2), some (.cerr key))
            | .nonstrU => (σ, some .ill)
            | .illU => (σ, some .ill)
        | some (.hlist _) => (σ, some (.cerr key))
        | none => (σ, some .ill)
      | some _ => (σ, some (.cerr key))
      | none => (σ, some .perr) := rfl

/-- The append loop writes only through the accumulator's entries for the
processed keys: every other address is untouched, also on the error paths. -/
theorem heapAppendPhase_low :
    ∀ (keys : List String) (σ : Store) (config relevant : HDict) (b : Nat),
    (∀ key a, key ∈ keys → alookupH config key = some (.href a) → ¬ a = b) →
    readObj (heapAppendPhase σ config relevant keys).1 b = readObj σ b := by
  intro keys
  induction keys with
  | nil => intro σ config relevant b _; rfl
  | cons key rest ih =>
    intro σ config relevant b hav
    rw [heapAppendPhase_cons]
    cases hck : alookupH config key with
    | none => rfl
    | some v =>
      cases v with
      | href a =>
        cases hro : readObj σ a with
        | none => simp [hro]
        | some o =>
          cases o with
          | hlist cur =>
            cases hgl : heapGetAsList σ relevant key with
            | error e => simp [hro, hgl]
            | ok items =>
              simp only [hro, hgl]
              rw [ih _ _ _ _ (fun key2 a2 hk2 => hav key2 a2 (List.mem_cons_of_mem _ hk2))]
              exact readObj_writeObj_ne σ a b _ (hav key a (List.mem_cons_self _ _) hck)
          | hdict d => simp [hro]
      | hnone => rfl
      | hbool b2 => rfl
      | hint n => rfl
      | hstr s => rfl

/-- The dict-union loop likewise writes only through the accumulator's
entries for the processed keys — including the write of the partially
updated contents on the caught-error path. -/
theorem heapDictPhase_low :
    ∀ (keys : List String) (σ : Store) (config relevant : HDict) (b : Nat),
    (∀ key a, key ∈ keys → alookupH config key = some (.href a) → ¬ a = b) →
    readObj (heapDictPhase σ config relevant keys).1 b = readObj σ b := by
  intro keys
  induction keys with
  | nil => intro σ config relevant b _; rfl
  | cons key rest ih =>
    intro σ config relevant b hav
    rw [heapDictPhase_cons]
    cases hck : alookupH config key with
    | none => rfl
    | some v =>
      cases v with
      | href a =>
        cases hro : readObj σ a with
        | none => simp [hro]
        | some o =>
          cases o with
          | hdict cur =>
            cases hrk : alookupH relevant key with
            | none =>
              simp only [hro, hrk]
              exact ih _ _ _ _ (fun key2 a2 hk2 => hav key2 a2 (List.mem_cons_of_mem _ hk2))
            | some dval =>
              cases hupd : hDictUpdate σ cur dval with
              | okU cur2 =>
                simp only [hro, hrk, hupd]
                rw [ih _ _ _ _ (fun key2 a2 hk2 => hav key2 a2 (List.mem_cons_of_mem _ hk2))]
                exact readObj_writeObj_ne σ a b _ (hav key a (List.mem_cons_self _ _) hck)
              | errU cur2 =>
                simp only [hro, hrk, hupd]
                exact readObj_writeObj_ne σ a b _ (hav key a (List.mem_cons_self _ _) hck)
              | nonstrU => simp [hro, hrk, hupd]
              | illU => simp [hro, hrk, hupd]
          | hlist xs => simp [hro]
      | hnone => rfl
      | hbool b2 => rfl
      | hint n => rfl
      | hstr s => rfl

/-- smart_update writes only through the accumulator's append and dict-union
entries: any address none of them references is untouched, whatever the
outcome. -/
theorem heapSmartUpdate_low (adapter : List String) (σ : Store) (config : HDict) (nc : HVal)
    (b : Nat)
    (hav : ∀ key a, (key ∈ AppendListFields ∨ key ∈ ExtendDictFields) →
      alookupH config key = some (.href a) → ¬ a = b) :
    readObj (heapSmartUpdate adapter σ config nc).store b = readObj σ b := by
  unfold heapSmartUpdate
  generalize heapRelevantOf adapter σ nc = relres
  cases relres with
  | error e => cases e <;> rfl
  | ok relevant =>
    have hapLow := heapAppendPhase_low AppendListFields σ config relevant b
      (fun key a hk => hav key a (Or.inl hk))
    show readObj
      (match heapAppendPhase σ config relevant AppendListFields with
       | (σ1, some e) => errHSU e σ1
       | (σ1, none) =>
         match heapDictPhase σ1 config relevant ExtendDictFields with
         | (σ2, some e) => errHSU e σ2
         | (σ2, none) =>
           HSU.ok σ2 (heapClobberPhase config relevant (ClobberFields ++ adapter))
             relevant).store b = readObj σ b
    revert hapLow
    generalize heapAppendPhase σ config relevant AppendListFields = apres
    intro hapLow
    obtain ⟨σ1, res⟩ := apres
    cases res with
    | some e => cases e <;> exact hapLow
    | none =>
      have hdpLow := heapDictPhase_low ExtendDictFields σ1 config relevant b
        (fun key a hk => hav key a (Or.inr hk))
      show readObj
        (match heapDictPhase σ1 config relevant ExtendDictFields with
         | (σ2, some e) => errHSU e σ2
         | (σ2, none) =>
           HSU.ok σ2 (heapClobberPhase config relevant (ClobberFields ++ adapter))
             relevant).store b = readObj σ b
      revert hdpLow
      generalize heapDictPhase σ1 config relevant ExtendDictFields = dpres
      intro hdpLow
      obtain ⟨σ2, res2⟩ := dpres
      cases res2 with
      | some e => cases e <;> exact hdpLow.trans hapLow
      | none => exact hdpLow.trans hapLow

/-- The accumulator a successful smart_update returns is the clobber-phase
rebinding of the accumulator it was given. -/
theorem heapSmartUpdate_ok_config {adapter : List String} {σ : Store} {config : HDict}
    {nc : HVal} {σ2 : Store} {config1 relevant : HDict}
    (h : heapSmartUpdate adapter σ config nc = .ok σ2 config1 relevant) :
    config1 = heapClobberPhase config relevant (ClobberFields ++ adapter) := by
  unfold heapSmartUpdate at h
  revert h
  generalize heapRelevantOf adapter σ nc = relres
  intro h
  cases relres with
  | error e => cases e <;> simp [errHSU] at h
  | ok relevant2 =>
    have h2 : (match heapAppendPhase σ config relevant2 AppendListFields with
        | (σ1, some e) => errHSU e σ1
        | (σ1, none) =>
          match heapDictPhase σ1 config relevant2 ExtendDictFields with
          | (σ2, some e) => errHSU e σ2
          | (σ2, none) =>
            HSU.ok σ2 (heapClobberPhase config relevant2 (ClobberFields ++ adapter))
              relevant2) = HSU.ok σ2 config1 relevant := h
    revert h2
    generalize heapAppendPhase σ config relevant2 AppendListFields = apres
    intro h2
    obtain ⟨σ1, res⟩ := apres
    cases res with
    | some e => cases e <;> simp [errHSU] at h2
    | none =>
      have h3 : (match heapDictPhase σ1 config relevant2 ExtendDictFields with
          | (σ2, some e) => errHSU e σ2
          | (σ2, none) =>
            HSU.ok σ2 (heapClobberPhase config relevant2 (ClobberFields ++ adapter))
              relevant2) = HSU.ok σ2 config1 relevant := h2
      revert h3
      generalize heapDictPhase σ1 config relevant2 ExtendDictFields = dpres
      intro h3
      obtain ⟨σ2b, res2⟩ := dpres
      cases res2 with
      | some e => cases e <;> simp [errHSU] at h3
      | none =>
        injection h3 with h1 hcfg hrel2
        rw [← hrel2]
        exact hcfg.symm

/-- With the adapter-specific keys disjoint from the append and dict-union
fields, a successful smart_update leaves the accumulator's append and
dict-union entries bound to the same objects: the clobber loop never touches
them. -/
theorem heapSmartUpdate_ok_lookupAE {adapter : List String} {σ : Store} {config : HDict}
    {nc : HVal} {σ2 : Store} {config1 relevant : HDict}
    (hdisj : ∀ k, k ∈ adapter → k ∉ AppendListFields ∧ k ∉ ExtendDictFields)
    (h : heapSmartUpdate adapter σ config nc = .ok σ2 config1 relevant)
    (key : String) (hk : key ∈ AppendListFields ∨ key ∈ ExtendDictFields) :
    alookupH config1 key = alookupH config key := by
  rw [heapSmartUpdate_ok_config h]
  apply heapClobberPhase_lookup_other
  intro hmem
  rcases List.mem_append.mp hmem with hcl | had
  · rcases hk with hk | hk
    · exact append_not_clobber hk hcl
    · exact extend_not_clobber hk hcl
  · rcases hk with hk | hk
    · exact (hdisj key had).1 hk
    · exact (hdisj key had).2 hk

theorem heapGpLoop_cons (adapter : List String) (σ : Store) (config : HDict) (mref : HVal)
    (level : String) (rest : List String) :
    heapGpLoop adapter σ config mref (level :: rest) =
      match mref with
      | .href a =>
        match readObj σ a with
        | some (.hdict d) =>
          match alookupH d level with
          | none => .ok σ config
          | some lc =>
            if isNoneH lc then .ok σ config
            else
              match heapSmartUpdate adapter σ config lc with
              | .perr σ1 => .perr σ1
              | .cerr f σ1 => .cerr f σ1
              | .ill σ1 => .ill σ1
              | .ok σ1 config1 relevant =>
                match readObj σ1 a with
                | some (.hdict d1) =>
                  match alookupH d1 level with
                  | some lc1 =>
                    heapGpLoop adapter σ1 (aupdateH config1 (hClobberCfgs relevant)) lc1 rest
                  | none => .perr σ1
                | some (.hlist _) => .perr σ1
                | none => .ill σ1
        | some (.hlist _) => .perr σ
        | none => .ill σ
      | _ => .perr σ := rfl

/-- The walk writes only through the accumulator's append and dict-union
entries at each level; with the adapter-specific keys disjoint from those
fields, the entries keep referencing the objects they reference on entry, so
any other address is untouched. -/
theorem heapGpLoop_low :
    ∀ (fqn adapter : List String) (σ : Store) (config : HDict) (mref : HVal) (b : Nat),
    (∀ k, k ∈ adapter → k ∉ AppendListFields ∧ k ∉ ExtendDictFields) →
    (∀ key a, (key ∈ AppendListFields ∨ key ∈ ExtendDictFields) →
      alookupH config key = some (.href a) → ¬ a = b) →
    readObj (heapGpLoop adapter σ config mref fqn).store b = readObj σ b := by
  intro fqn
  induction fqn with
  | nil => intro adapter σ config mref b _ _; rfl
  | cons level rest ih =>
    intro adapter σ config mref b hdisj hav
    cases mref with
    | hnone => rfl
    | hbool b2 => rfl
    | hint n => rfl
    | hstr s => rfl
    | href a =>
      show readObj
        (match readObj σ a with
         | some (.hdict d) =>
           match alookupH d level with
           | none => HGP.ok σ config
           | some lc =>
             if isNoneH lc then HGP.ok σ config
             else
               match heapSmartUpdate adapter σ config lc with
               | .perr σ1 => HGP.perr σ1
               | .cerr f σ1 => HGP.cerr f σ1
               | .ill σ1 => HGP.ill σ1
               | .ok σ1 config1 relevant =>
                 match readObj σ1 a with
                 | some (.hdict d1) =>
                   match alookupH d1 level with
                   | some lc1 =>
                     heapGpLoop adapter σ1 (aupdateH config1 (hClobberCfgs relevant)) lc1 rest
                   | none => HGP.perr σ1
                 | some (.hlist _) => HGP.perr σ1
                 | none => HGP.ill σ1
         | some (.hlist _) => HGP.perr σ
         | none => HGP.ill σ).store b = readObj σ b
      cases hro : readObj σ a with
      | none => rfl
      | some o =>
        cases o with
        | hlist xs => rfl
        | hdict d =>
          cases hl : alookupH d level with
          | none =>
            simp only [hl]
            rfl
          | some lc =>
            by_cases hn : isNoneH lc = true
            · simp only [hl]
              rw [if_pos hn]
              rfl
            · simp only [hl]
              rw [if_neg hn]
              have hsuLow := heapSmartUpdate_low adapter σ config lc b hav
              cases hsu : heapSmartUpdate adapter σ config lc with
              | perr σ1 =>
                rw [hsu] at hsuLow
                exact hsuLow
              | cerr f σ1 =>
                rw [hsu] at hsuLow
                exact hsuLow
              | ill σ1 =>
                rw [hsu] at hsuLow
                exact hsuLow
              | ok σ1 config1 relevant =>
                rw [hsu] at hsuLow
                have hce := heapSmartUpdate_ok_lookupAE hdisj hsu
                have hnext : ∀ key a2,
                    (key ∈ AppendListFields ∨ key ∈ ExtendDictFields) →
                    alookupH (aupdateH config1 (hClobberCfgs relevant)) key
                      = some (.href a2) → ¬ a2 = b := by
                  intro key a2 hk hlk
                  rw [aupdateH_lookup_none _ _ _ (hClobberCfgs_lookup_ae relevant key hk),
                    hce key hk] at hlk
                  exact hav key a2 hk hlk
                cases hro1 : readObj σ1 a with
                | none =>
                  simp only [hro1]
                  exact hsuLow
                | some o1 =>
                  cases o1 with
                  | hlist xs1 =>
                    simp only [hro1]
                    exact hsuLow
                  | hdict d1 =>
                    cases hl1 : alookupH d1 level with
                    | none =>
                      simp only [hro1, hl1]
                      exact hsuLow
                    | some lc1 =>
                      simp only [hro1, hl1]
                      exact (ih adapter σ1 _ lc1 b hdisj hnext).trans hsuLow

/-! ## The claims -/

/-- C1: resolve() applies scope precedence by merge order.  When active and
owning project have the same name the result is _merge(defaults,
active-project contribution, in-unit overrides), so a non-mapping in-unit
override wins the key against everything merged before it (in particular the
active project tree, for clobber fields); when the names differ the result is
_merge(defaults, owning-project contribution, in-unit overrides,
active-project contribution), so a non-mapping value scoped by the active
project wins the key against the owning project tree and the unit's own
inline declaration alike.  (Later arguments win key conflicts; for two
mappings the conflict is decided key by key, recursively, which is why the
outright-win statements are about non-mapping values.) -/
theorem spec_C1 (r : Resolver) (active : Dict)
    (hnd : NodupKeys r.in_model_config)
    (ha : get_project_config r.AdapterSpecificConfigs r.fqn r.node_type r.active_project
      = .ok active) :
    (r.active_project.project_name = r.own_project.project_name →
      SourceConfig.config r
        = .ok (pymerge [defaultsFor r.node_type, active, r.in_model_config]) ∧
      (∀ k v, k ∈ ClobberFields → alookup r.in_model_config k = some v →
        notVDict v = true →
        alookup (pymerge [defaultsFor r.node_type, active, r.in_model_config]) k = some v)) ∧
    (¬ r.active_project.project_name = r.own_project.project_name →
      ∀ own, get_project_config r.AdapterSpecificConfigs r.fqn r.node_type r.own_project
        = .ok own →
      SourceConfig.config r
        = .ok (pymerge [defaultsFor r.node_type, own, r.in_model_config, active]) ∧
      (∀ k v, alookup active k = some v → notVDict v = true →
        alookup (pymerge [defaultsFor r.node_type, own, r.in_model_config, active]) k
          = some v)) := by
  constructor
  · intro hname
    constructor
    · simp only [SourceConfig.config, ha]
      rw [if_pos hname]
    · intro k v _ hv hnv
      rw [pymerge_three]
      exact pymergeOne_lookup_last
        (nodupKeys_pymergeOne _ (nodupKeys_pymergeOne _ nodupKeys_nil)) hnd hv hnv
  · intro hname own hown
    constructor
    · simp only [SourceConfig.config, ha]
      rw [if_neg hname]
      simp only [hown]
    · intro k v hv hnv
      rw [pymerge_four]
      exact pymergeOne_lookup_last
        (nodupKeys_pymergeOne _ (nodupKeys_pymergeOne _ (nodupKeys_pymergeOne _ nodupKeys_nil)))
        (gp_ok_nodup ha) hv hnv

/-- Witness for C1 at concrete inputs: for the first-party sameResolver the
inline override of the clobber field materialized wins against the project
tree value table; for the dependency depResolver the active project's scoped
value table wins against both the owning tree's incremental and the inline
ephemeral. -/
theorem spec_C1_witness :
    (SourceConfig.config sameResolver
      = .ok (pymerge [defaultsFor .Model, sameActiveCfg,
          [("materialized", .vstr "ephemeral")]]) ∧
     alookup (pymerge [defaultsFor .Model, sameActiveCfg,
          [("materialized", .vstr "ephemeral")]]) "materialized"
       = some (.vstr "ephemeral")) ∧
    (SourceConfig.config depResolver
      = .ok (pymerge [defaultsFor .Model, depOwnCfg,
          [("materialized", .vstr "ephemeral")], sameActiveCfg]) ∧
     alookup (pymerge [defaultsFor .Model, depOwnCfg,
          [("materialized", .vstr "ephemeral")], sameActiveCfg]) "materialized"
       = some (.vstr "table")) := by
  have h1 := spec_C1 sameResolver sameActiveCfg (by unfold NodupKeys; decide) rfl
  have h2 := spec_C1 depResolver sameActiveCfg (by unfold NodupKeys; decide) rfl
  refine ⟨⟨(h1.1 rfl).1, (h1.1 rfl).2 "materialized" (.vstr "ephemeral") (by decide) rfl rfl⟩,
    ⟨(h2.2 (by decide) depOwnCfg rfl).1,
     (h2.2 (by decide) depOwnCfg rfl).2 "materialized" (.vstr "table") rfl rfl⟩⟩

/-- C2: the defaults contributed by resolve() are enabled true and
materialized view, with materialized overridden to seed for a Seed unit and
snapshot for a Snapshot unit, and severity ERROR additionally set for a Test
unit; hence a Seed unit with no configuration anywhere resolves with
materialized seed and enabled true, and a Test unit with no configuration
anywhere resolves with severity ERROR. -/
theorem spec_C2 (r : Resolver)
    (hact : treeFor r.node_type r.active_project = .vdict [])
    (hown : treeFor r.node_type r.own_project = .vdict [])
    (himc : r.in_model_config = []) :
    (defaultsFor .Model = [("enabled", .vbool true), ("materialized", .vstr "view")] ∧
     defaultsFor .Seed = [("enabled", .vbool true), ("materialized", .vstr "seed")] ∧
     defaultsFor .Snapshot = [("enabled", .vbool true), ("materialized", .vstr "snapshot")] ∧
     defaultsFor .Test =
       [("enabled", .vbool true), ("materialized", .vstr "view"), ("severity", .vstr "ERROR")]) ∧
    (r.node_type = .Seed → ∃ cfg, SourceConfig.config r = .ok cfg ∧
       alookup cfg "materialized" = some (.vstr "seed") ∧
       alookup cfg "enabled" = some (.vbool true)) ∧
    (r.node_type = .Test → ∃ cfg, SourceConfig.config r = .ok cfg ∧
       alookup cfg "severity" = some (.vstr "ERROR")) := by
  have hactok : get_project_config r.AdapterSpecificConfigs r.fqn r.node_type r.active_project
      = .ok gpInit := gp_empty_tree hact
  have hownok : get_project_config r.AdapterSpecificConfigs r.fqn r.node_type r.own_project
      = .ok gpInit := gp_empty_tree hown
  refine ⟨⟨rfl, rfl, rfl, rfl⟩, ?_, ?_⟩
  · intro hnt
    by_cases hname : r.active_project.project_name = r.own_project.project_name
    · refine ⟨pymerge [defaultsFor r.node_type, gpInit, r.in_model_config], ?_, ?_, ?_⟩
      · simp only [SourceConfig.config, hactok]
        rw [if_pos hname]
      · rw [himc, hnt]
        rfl
      · rw [himc, hnt]
        rfl
    · refine ⟨pymerge [defaultsFor r.node_type, gpInit, r.in_model_config, gpInit], ?_, ?_, ?_⟩
      · simp only [SourceConfig.config, hactok]
        rw [if_neg hname]
        simp only [hownok]
      · rw [himc, hnt]
        rfl
      · rw [himc, hnt]
        rfl
  · intro hnt
    by_cases hname : r.active_project.project_name = r.own_project.project_name
    · refine ⟨pymerge [defaultsFor r.node_type, gpInit, r.in_model_config], ?_, ?_⟩
      · simp only [SourceConfig.config, hactok]
        rw [if_pos hname]
      · rw [himc, hnt]
        rfl
    · refine ⟨pymerge [defaultsFor r.node_type, gpInit, r.in_model_config, gpInit], ?_, ?_⟩
      · simp only [SourceConfig.config, hactok]
        rw [if_neg hname]
        simp only [hownok]
      · rw [himc, hnt]
        rfl

/-- Witness for C2 at concrete inputs: the unconfigured Seed resolver yields
materialized seed and enabled true, the unconfigured Test resolver yields
severity ERROR. -/
theorem spec_C2_witness :
    SourceConfig.config seedResolver = .ok seedCfg ∧
    alookup seedCfg "materialized" = some (.vstr "seed") ∧
    alookup seedCfg "enabled" = some (.vbool true) ∧
    SourceConfig.config testResolver = .ok testCfg ∧
    alookup testCfg "severity" = some (.vstr "ERROR") := by
  obtain ⟨cfg1, hc1, hm1, he1⟩ := (spec_C2 seedResolver rfl rfl rfl).2.1 rfl
  obtain ⟨cfg2, hc2, hs2⟩ := (spec_C2 testResolver rfl rfl rfl).2.2 rfl
  have hcc1 : SourceConfig.config seedResolver = .ok seedCfg := rfl
  rw [hc1] at hcc1
  injection hcc1 with hcc1
  subst hcc1
  have hcc2 : SourceConfig.config testResolver = .ok testCfg := rfl
  rw [hc2] at hcc2
  injection hcc2 with hcc2
  subst hcc2
  exact ⟨hc1, hm1, he1, hc2, hs2⟩

/-- C3 counterexample: a configuration tree in which the fqn segment a is
present but maps to a boolean, so the segment has no child sub-tree.  Contrary
to the claim, get_project_config does not stop and return the accumulator: the
contribution step iterates the non-iterable child and raises an uncaught
TypeError, so the result is an error, not a configuration. -/
theorem spec_C3_counterexample :
    get_project_config [] ["a"] .Model boolChildProject = .perr := rfl

theorem updLoop_cons (r : Resolver) (key : String) (value : Value) (rest : Dict) :
    updLoop r ((key, value) :: rest) =
      if key ∈ AppendListFields then
        match alookup r.in_model_config key with
        | none => updLoop (setIMC r key (.vlist (asPyList value))) rest
        | some (.vlist cur) => updLoop (setIMC r key (.vlist (cur ++ asPyList value))) rest
        | some _ => .perr
      else if key ∈ ExtendDictFields then
        match alookup r.in_model_config key with
        | none =>
          match pyDictUpdate [] value with
          | .okU cur2 => updLoop (setIMC r key (.vdict cur2)) rest
          | .errU _ => .cerr key r
          | .nonstrU => .nonstr
        | some (.vdict cur) =>
          match pyDictUpdate cur value with
          | .okU cur2 => updLoop (setIMC r key (.vdict cur2)) rest
          | .errU cur2 => .cerr key (setIMC r key (.vdict cur2))
          | .nonstrU => .nonstr
        | some _ => .cerr key r
      else
        updLoop (setIMC r key value) rest := rfl

/-- C3 (amended): get_project_config processes the FQN segments in order and,
at the first segment whose entry in the current mapping is absent or None,
stops: the remaining segments contribute nothing, the result is the
accumulator built so far, and no error is raised for absent segments or for an
empty or absent tree.  A segment that is present but maps to a non-mapping
value, however, does not stop the walk cleanly: the step raises an uncaught
type error, either while iterating a non-iterable child or at the lookup for
the following segment. -/
theorem spec_C3_amended :
    (∀ (adapter : List String) (config : Dict) (d : Dict) (seg : String) (rest : List String),
        alookup d seg = none ∨ alookup d seg = some .vnone →
        gpLoop adapter config (.vdict d) (seg :: rest) = .ok config) ∧
    (∀ (adapter fqn : List String) (nt : NodeType) (p : Project),
        treeFor nt p = .vnone → get_project_config adapter fqn nt p = .ok gpInit) ∧
    (∀ (adapter fqn : List String) (nt : NodeType) (p : Project),
        treeFor nt p = .vdict [] → get_project_config adapter fqn nt p = .ok gpInit) ∧
    (get_project_config [] ["a", "b"] .Model strChildProject = .perr) := by
  refine ⟨?_, ?_, ?_, rfl⟩
  · intro adapter config d seg rest h
    rcases h with h | h
    · simp [gpLoop_cons, asDict, h]
    · simp [gpLoop_cons, asDict, h, isNoneV]
  · intro adapter fqn nt p h
    exact gp_none_tree (by rw [h]; rfl)
  · intro adapter fqn nt p h
    exact gp_empty_tree h

/-- Witness for the amended C3 at concrete inputs: a lookup whose first
segment is absent returns the root accumulator, and empty or absent trees
resolve to the bare initial accumulator. -/
theorem spec_C3_witness :
    gpLoop [] gpInit (.vdict [("b", .vbool true)]) ["a", "c"] = .ok gpInit ∧
    get_project_config [] ["a"] .Model ⟨"proj", .vnone, .vnone⟩ = .ok gpInit ∧
    get_project_config [] ["a"] .Model emptyProject = .ok gpInit := by
  refine ⟨spec_C3_amended.1 [] gpInit [("b", .vbool true)] "a" ["c"] (Or.inl rfl),
    spec_C3_amended.2.1 [] ["a"] .Model ⟨"proj", .vnone, .vnone⟩ rfl,
    spec_C3_amended.2.2.1 [] ["a"] .Model emptyProject rfl⟩

/-- C4 counterexample: the claim says every non-mapping value supplied for a
dict-union field raises the designated compiler error, but Python's
dict.update also accepts an iterable of key/value pairs: update() with
column_types bound to the list containing the two-character string ab raises
no error at all and stores the mapping a to b. -/
theorem spec_C4_counterexample :
    (update_in_model_config baseResolver [("column_types", .vlist [.vstr "ab"])]).okConfig
      = some [("column_types", .vdict [("a", .vstr "b")])] := rfl

/-- C4 (amended): a dict-union field value on which dict.update raises one of
the caught exceptions — a non-iterable scalar, a non-empty string, or a
sequence whose offending item comes first — raises the designated compiler
error and no other error kind, and since the raise happens before any pair is
inserted, the field is left untouched (part one).  But a non-mapping that is
a sequence of key/value pairs is accepted with no error at all (part two),
and when a sequence raises only after valid leading pairs, those pairs are
already inserted into the aliased field dict, so on that error the prior
state of a present field is the partially updated dict at the raise, not the
untouched original (part three).  At tree level, the surviving half of the
claim: whenever smart_update raises the compiler error, the named field is a
dict-union field (part four). -/
theorem spec_C4_amended :
    (∀ (r : Resolver) (k : String) (v : Value),
        r.translate_aliases [(k, v)] = [(k, v)] →
        k ∈ ExtendDictFields →
        pyDictUpdate [] v = .errU [] →
        update_in_model_config r [(k, v)] = .cerr k r) ∧
    (∀ (r : Resolver) (k : String) (v : Value) (cur2 : Dict),
        r.translate_aliases [(k, v)] = [(k, v)] →
        k ∈ ExtendDictFields →
        alookup r.in_model_config k = none →
        pyDictUpdate [] v = .okU cur2 →
        update_in_model_config r [(k, v)] = .ok (setIMC r k (.vdict cur2))) ∧
    (∀ (r : Resolver) (k : String) (v : Value) (cur cur2 : Dict),
        r.translate_aliases [(k, v)] = [(k, v)] →
        k ∈ ExtendDictFields →
        alookup r.in_model_config k = some (.vdict cur) →
        pyDictUpdate cur v = .errU cur2 →
        update_in_model_config r [(k, v)] = .cerr k (setIMC r k (.vdict cur2))) ∧
    (∀ (adapter : List String) (mc : Dict) (nc : Value) (f : String) (mcErr : Dict),
        smart_update adapter mc nc = .cerr f mcErr → f ∈ ExtendDictFields) := by
  refine ⟨?_, ?_, ?_, ?_⟩
  · intro r k v htr hk he
    unfold update_in_model_config
    rw [htr, updLoop_cons, if_neg (extend_not_append hk), if_pos hk]
    cases himc : alookup r.in_model_config k with
    | none => rw [he]
    | some val =>
      cases val with
      | vdict cur =>
        simp only [pyDictUpdate_err_empty v he cur]
        show UpdRes.cerr k (setIMC r k (.vdict cur)) = UpdRes.cerr k r
        unfold setIMC
        rw [aset_self _ _ _ himc]
      | vnone => rfl
      | vbool b => rfl
      | vint n => rfl
      | vstr s => rfl
      | vlist xs => rfl
  · intro r k v cur2 htr hk himc hup
    unfold update_in_model_config
    rw [htr, updLoop_cons, if_neg (extend_not_append hk), if_pos hk, himc, hup]
    rfl
  · intro r k v cur cur2 htr hk himc hup
    unfold update_in_model_config
    rw [htr, updLoop_cons, if_neg (extend_not_append hk), if_pos hk]
    simp only [himc, hup]
  · intro adapter mc nc f mcErr h
    unfold smart_update at h
    split at h
    · simp at h
    · split at h
      · simp at h
      · rename_i relv hrel mc1 hap
        split at h
        · simp at h
        · rename_i f2 mcErr2 hdp
          injection h with h1 h2
          subst h1
          exact dictPhase_cerr _ _ _ _ _ hdp
        · simp at h
        · simp at h

/-- Witness for the amended C4 at concrete inputs: a string value for
column_types raises the compiler error with the resolver unchanged; a mixed
sequence — one valid pair, then a bad item — raises the same compiler error
but leaves the already-present column_types dict partially updated (the pair
a to 1 was inserted before the raise); the same string contribution at tree
level raises the compiler error; and the field smart_update names is a
dict-union field. -/
theorem spec_C4_witness :
    update_in_model_config baseResolver [("column_types", .vstr "not_a_mapping")]
      = .cerr "column_types" baseResolver ∧
    update_in_model_config colResolver
        [("column_types", .vlist [.vlist [.vstr "a", .vint 1], .vstr "bad"])]
      = .cerr "column_types"
          (setIMC colResolver "column_types" (.vdict [("x", .vint 1), ("a", .vint 1)])) ∧
    smart_update [] gpInit (.vdict [("column_types", .vstr "x")])
      = .cerr "column_types" gpInit ∧
    "column_types" ∈ ExtendDictFields := by
  refine ⟨spec_C4_amended.1 baseResolver "column_types" (.vstr "not_a_mapping") rfl
      (by decide) rfl,
    spec_C4_amended.2.2.1 colResolver "column_types"
      (.vlist [.vlist [.vstr "a", .vint 1], .vstr "bad"])
      [("x", .vint 1)] [("x", .vint 1), ("a", .vint 1)] rfl (by decide) rfl rfl,
    rfl,
    spec_C4_amended.2.2.2 [] gpInit (.vdict [("column_types", .vstr "x")])
      "column_types" gpInit rfl⟩

/-- C5 counterexample: the claim says update() silently drops keys outside
the recognized set, but the code's final else branch stores any such key; the
unrecognized key bogus ends up in the in-unit override mapping and the call
succeeds. -/
theorem spec_C5_counterexample :
    (update_in_model_config baseResolver [("bogus", .vbool true)]).okConfig
      = some [("bogus", .vbool true)] := rfl

/-- C5 (amended): update_in_model_config does not filter its input: a key that
is neither an append field nor a dict-union field — recognized or not — falls
into the clobber branch and is stored in the in-unit override mapping.  Only
the tree-level merge (smart_update) filters its contribution to the
recognized keys: an unrecognized key never appears in the returned
relevant_configs and never changes the accumulator. -/
theorem spec_C5_amended :
    (∀ (r : Resolver) (k : String) (v : Value),
        r.translate_aliases [(k, v)] = [(k, v)] →
        k ∉ AppendListFields → k ∉ ExtendDictFields →
        update_in_model_config r [(k, v)] = .ok (setIMC r k v)) ∧
    (∀ (adapter : List String) (mc nc mc' rel : Dict) (k : String),
        smart_update adapter mc (.vdict nc) = .ok mc' rel →
        k ∉ configKeysWith adapter →
        alookup rel k = none ∧ alookup mc' k = alookup mc k) := by
  refine ⟨?_, ?_⟩
  · intro r k v htr h1 h2
    unfold update_in_model_config
    rw [htr, updLoop_cons, if_neg h1, if_neg h2]
    rfl
  · intro adapter mc nc mc' rel k h hk
    obtain ⟨h1, h2, _, _⟩ := notMem_configKeys hk
    obtain ⟨mc1, mc2, hrel, _, _, _⟩ := smart_update_ok_components h
    have hreleq : rel = filterRecognized adapter nc := by
      simpa [relevantOf] using hrel.symm
    have hnone : alookup rel k = none := by
      rw [hreleq, alookup_filterRecognized, if_neg hk]
    exact ⟨hnone, smart_update_lookup_other h h1 h2 hnone⟩

/-- Witness for the amended C5 at concrete inputs: update() stores the
unrecognized key bogus, and smart_update drops it. -/
theorem spec_C5_witness :
    update_in_model_config baseResolver [("bogus", .vbool true)]
      = .ok (setIMC baseResolver "bogus" (.vbool true)) ∧
    smart_update [] gpInit (.vdict [("bogus", .vbool true)]) = .ok gpInit [] ∧
    alookup gpInit "bogus" = none := by
  refine ⟨spec_C5_amended.1 baseResolver "bogus" (.vbool true) rfl (by decide) (by decide),
    ?_, rfl⟩
  have h := spec_C5_amended.2 [] gpInit [("bogus", .vbool true)] gpInit [] "bogus" rfl
    (by decide)
  exact rfl

/-- C6 counterexample: the claim says update() de-duplicates append-field
values, but the code's append branch is a plain list extension; two calls with
the same tag leave two occurrences, not one. -/
theorem spec_C6_counterexample :
    (updTwice baseResolver [("tags", .vstr "x")] [("tags", .vstr "x")]).okConfig
      = some [("tags", .vlist [.vstr "x", .vstr "x"])] := rfl

/-- C6 (amended): update_in_model_config merges append-field values by plain
concatenation, without de-duplication: the stored sequence is the previous
contents followed by every new element (a scalar wrapped as a singleton), so
calling update() twice with the same value leaves two occurrences.
De-duplication of append fields happens only in the tree-level merge
(smart_update). -/
theorem spec_C6_amended :
    (∀ (r : Resolver) (v : Value) (cur : List Value),
        r.translate_aliases [("tags", v)] = [("tags", v)] →
        alookup r.in_model_config "tags" = some (.vlist cur) →
        update_in_model_config r [("tags", v)]
          = .ok (setIMC r "tags" (.vlist (cur ++ asPyList v)))) ∧
    (∀ (r : Resolver) (v : Value),
        r.translate_aliases [("tags", v)] = [("tags", v)] →
        alookup r.in_model_config "tags" = none →
        update_in_model_config r [("tags", v)]
          = .ok (setIMC r "tags" (.vlist (asPyList v)))) := by
  constructor
  · intro r v cur htr hcur
    unfold update_in_model_config
    rw [htr, updLoop_cons, if_pos (show ("tags" : String) ∈ AppendListFields by decide), hcur]
    rfl
  · intro r v htr hcur
    unfold update_in_model_config
    rw [htr, updLoop_cons, if_pos (show ("tags" : String) ∈ AppendListFields by decide), hcur]
    rfl

/-- Witness for the amended C6 at concrete inputs: a second x is appended
after the x already present, leaving two occurrences. -/
theorem spec_C6_witness :
    update_in_model_config tagResolver [("tags", .vstr "x")]
      = .ok (setIMC tagResolver "tags" (.vlist [.vstr "x", .vstr "x"])) := by
  have h := spec_C6_amended.1 tagResolver (.vstr "x") [.vstr "x"] rfl rfl
  exact h

/-- C7: the append-field merge of smart_update is idempotent and
order-preserving.  Part one gives the exact resulting sequence: the
accumulator's previous sequence followed by the recognized contribution's
elements not already present, in their relative order (a scalar contribution
is treated as a single-element sequence by get_as_list).  Part two:
re-applying the same contribution changes nothing.  Part three: merging
the list a, b and then the list b, c into an initially empty accumulator
yields a, b, c. -/
theorem spec_C7 :
    (∀ (adapter : List String) (mc nc : Dict) (k : String) (cur : List Value)
        (mc' rel : Dict),
        k ∈ AppendListFields → k ∉ adapter →
        alookup mc k = some (.vlist cur) →
        smart_update adapter mc (.vdict nc) = .ok mc' rel →
        alookup mc' k = some (.vlist (cur ++
          (getAsList (filterRecognized adapter nc) k).filter (fun f => !(pyElem f cur))))) ∧
    (∀ (adapter : List String) (mc nc : Dict) (k : String) (cur : List Value)
        (mc' rel mc2 rel2 : Dict),
        k ∈ AppendListFields → k ∉ adapter →
        alookup mc k = some (.vlist cur) →
        smart_update adapter mc (.vdict nc) = .ok mc' rel →
        smart_update adapter mc' (.vdict nc) = .ok mc2 rel2 →
        alookup mc2 k = alookup mc' k) ∧
    ((suTwice [] gpInit (.vdict [("tags", .vlist [.vstr "a", .vstr "b"])])
        (.vdict [("tags", .vlist [.vstr "b", .vstr "c"])])).okEntry "tags"
      = some (.vlist [.vstr "a", .vstr "b", .vstr "c"])) := by
  refine ⟨?_, ?_, rfl⟩
  · intro adapter mc nc k cur mc' rel hk hka hcur h
    exact smart_update_append_entry hk hka hcur h
  · intro adapter mc nc k cur mc' rel mc2 rel2 hk hka hcur h1 h2
    have e1 := smart_update_append_entry hk hka hcur h1
    have e2 := smart_update_append_entry hk hka e1 h2
    rw [e2, e1]
    have hG : (getAsList (filterRecognized adapter nc) k).filter
        (fun f => !(pyElem f (cur ++ (getAsList (filterRecognized adapter nc) k).filter
          (fun f => !(pyElem f cur))))) = [] := by
      rw [List.filter_eq_nil_iff]
      intro f hf
      by_cases hcf : pyElem f cur = true
      · simp [pyElem_append, hcf]
      · have hcfF : pyElem f cur = false := by
          cases hpc : pyElem f cur
          · rfl
          · exact absurd hpc hcf
        have hf2 : f ∈ (getAsList (filterRecognized adapter nc) k).filter
            (fun f => !(pyElem f cur)) :=
          List.mem_filter.mpr ⟨hf, by simp [hcfF]⟩
        simp [pyElem_append, pyElem_of_mem hf2]
    rw [hG, List.append_nil]

/-- Witness for C7 at concrete inputs: merging two tags into the empty-tag
initial accumulator stores exactly those two, and the two-step merge of a, b
then b, c yields a, b, c. -/
theorem spec_C7_witness :
    alookup tagsOnceCfg "tags" = some (.vlist [.vstr "a", .vstr "b"]) ∧
    (suTwice [] gpInit (.vdict [("tags", .vlist [.vstr "a", .vstr "b"])])
        (.vdict [("tags", .vlist [.vstr "b", .vstr "c"])])).okEntry "tags"
      = some (.vlist [.vstr "a", .vstr "b", .vstr "c"]) := by
  refine ⟨?_, spec_C7.2.2⟩
  have h := spec_C7.1 [] gpInit [("tags", .vlist [.vstr "a", .vstr "b"])] "tags" []
    tagsOnceCfg [("tags", .vlist [.vstr "a", .vstr "b"])] (by decide) (by simp) rfl rfl
  exact h

/-- C8: whenever resolve() returns a configuration, that configuration
contains every append-field key, every dict-union-field key, and the keys
enabled and materialized; any other key is present only if some contribution
in the chain supplied it — the defaults, the in-unit override mapping, or a
visited level of the active or owning project's tree. -/
theorem spec_C8 (r : Resolver) (cfg : Dict) (h : SourceConfig.config r = .ok cfg) :
    (∀ k, k ∈ AppendListFields → (alookup cfg k).isSome = true) ∧
    (∀ k, k ∈ ExtendDictFields → (alookup cfg k).isSome = true) ∧
    (alookup cfg "enabled").isSome = true ∧
    (alookup cfg "materialized").isSome = true ∧
    (∀ k, k ∉ AppendListFields → k ∉ ExtendDictFields → (alookup cfg k).isSome = true →
      k ∈ (defaultsFor r.node_type).map Prod.fst ∨
      k ∈ r.in_model_config.map Prod.fst ∨
      k ∈ gpSupplied r.node_type r.fqn r.active_project ∨
      k ∈ gpSupplied r.node_type r.fqn r.own_project) := by
  obtain ⟨active, hact, hcase⟩ := config_ok_components h
  have hactsome : ∀ k, k ∈ AppendListFields ∨ k ∈ ExtendDictFields →
      (alookup active k).isSome = true := fun k hk =>
    gp_ok_isSome_init hact ((gpInit_isSome_iff k).mpr hk)
  rcases hcase with ⟨hname, hcfg⟩ | ⟨hname, own, hown, hcfg⟩
  · subst hcfg
    have hup : ∀ k, (alookup active k).isSome = true →
        (alookup (pymerge [defaultsFor r.node_type, active, r.in_model_config]) k).isSome
          = true := by
      intro k hk
      rw [pymerge_three]
      exact isSome_pymergeOne_left _ (isSome_pymergeOne_right _ hk)
    have hupd : ∀ k, (alookup (defaultsFor r.node_type) k).isSome = true →
        (alookup (pymerge [defaultsFor r.node_type, active, r.in_model_config]) k).isSome
          = true := by
      intro k hk
      rw [pymerge_three]
      exact isSome_pymergeOne_left _
        (isSome_pymergeOne_left _ (isSome_pymergeOne_right _ hk))
    refine ⟨fun k hk => hup k (hactsome k (Or.inl hk)),
            fun k hk => hup k (hactsome k (Or.inr hk)),
            hupd "enabled" (by rw [defaults_enabled]; rfl),
            hupd "materialized" (defaults_materialized _), ?_⟩
    intro k hk1 hk2 hk3
    rw [pymerge_three] at hk3
    rcases isSome_pymergeOne_backward hk3 with h1 | h1
    · rcases isSome_pymergeOne_backward h1 with h2 | h2
      · rcases isSome_pymergeOne_backward h2 with h3 | h3
        · simp [alookup] at h3
        · exact Or.inl ((alookup_isSome_iff _ _).mp h3)
      · rcases gp_ok_isSome_backward hact h2 with h3 | h3
        · rcases (gpInit_isSome_iff k).mp h3 with h4 | h4
          · exact absurd h4 hk1
          · exact absurd h4 hk2
        · exact Or.inr (Or.inr (Or.inl h3))
    · exact Or.inr (Or.inl ((alookup_isSome_iff _ _).mp h1))
  · subst hcfg
    have hup : ∀ k, (alookup active k).isSome = true →
        (alookup (pymerge [defaultsFor r.node_type, own, r.in_model_config, active]) k).isSome
          = true := by
      intro k hk
      rw [pymerge_four]
      exact isSome_pymergeOne_right _ hk
    have hupd : ∀ k, (alookup (defaultsFor r.node_type) k).isSome = true →
        (alookup (pymerge [defaultsFor r.node_type, own, r.in_model_config, active]) k).isSome
          = true := by
      intro k hk
      rw [pymerge_four]
      exact isSome_pymergeOne_left _ (isSome_pymergeOne_left _
        (isSome_pymergeOne_left _ (isSome_pymergeOne_right _ hk)))
    refine ⟨fun k hk => hup k (hactsome k (Or.inl hk)),
            fun k hk => hup k (hactsome k (Or.inr hk)),
            hupd "enabled" (by rw [defaults_enabled]; rfl),
            hupd "materialized" (defaults_materialized _), ?_⟩
    intro k hk1 hk2 hk3
    rw [pymerge_four] at hk3
    rcases isSome_pymergeOne_backward hk3 with h1 | h1
    · rcases isSome_pymergeOne_backward h1 with h2 | h2
      · rcases isSome_pymergeOne_backward h2 with h3 | h3
        · rcases isSome_pymergeOne_backward h3 with h4 | h4
          · simp [alookup] at h4
          · exact Or.inl ((alookup_isSome_iff _ _).mp h4)
        · rcases gp_ok_isSome_backward hown h3 with h4 | h4
          · rcases (gpInit_isSome_iff k).mp h4 with h5 | h5
            · exact absurd h5 hk1
            · exact absurd h5 hk2
          · exact Or.inr (Or.inr (Or.inr h4))
      · exact Or.inr (Or.inl ((alookup_isSome_iff _ _).mp h2))
    · rcases gp_ok_isSome_backward hact h1 with h2 | h2
      · rcases (gpInit_isSome_iff k).mp h2 with h3 | h3
        · exact absurd h3 hk1
        · exact absurd h3 hk2
      · exact Or.inr (Or.inr (Or.inl h2))

/-- Witness for C8 at a concrete input: the resolved Seed configuration
contains the append key tags, the dict-union key vars, enabled and
materialized. -/
theorem spec_C8_witness :
    (alookup seedCfg "tags").isSome = true ∧
    (alookup seedCfg "vars").isSome = true ∧
    (alookup seedCfg "enabled").isSome = true ∧
    (alookup seedCfg "materialized").isSome = true := by
  have h := spec_C8 seedResolver seedCfg rfl
  exact ⟨h.1 "tags" (by decide), h.2.1 "vars" (by decide), h.2.2.1, h.2.2.2.1⟩

/-- C9 counterexample: the claim says a lookup never writes into the
configuration tree, but when an adapter-specific key coincides with an append
field the clobber loop aliases the tree's object into the accumulator and the
next level's append loop extends that tree object in place.  In the heap
embedding: adapter-specific key tags, tree {tags: [a], child: {tags: [b]}}
(address 1 holds the root tags list), fqn [child] — after the lookup the
tree's own list object at address 1 has become [a, b]. -/
theorem spec_C9_counterexample :
    readObj c9Store 1 = some (.hlist [.hstr "a"]) ∧
    readObj (heapGp ["tags"] ["child"] (.href 0) c9Store).store 1
      = some (.hlist [.hstr "a", .hstr "b"]) := ⟨rfl, rfl⟩

/-- C9 (amended): get_project_config reads the configuration tree and copies
self.fqn, and all its in-place writes go through the accumulator's append and
dict-union entries.  Provided the adapter-specific key set is disjoint from
the append and dict-union fields, those entries reference the freshly
allocated accumulator objects throughout the walk, so no pre-existing object
— the tree included — is ever written: every address of the original store
still holds its original object after the lookup, whatever the outcome.  If,
however, an adapter-specific key coincides with an append or dict-union
field, the clobber loop rebinds that accumulator entry to a tree object and a
later level's append or dict-union step mutates that tree object in place, as
the counterexample shows. -/
theorem spec_C9_amended :
    ∀ (adapter fqn : List String) (models : HVal) (σ : Store) (b : Nat),
    (∀ k, k ∈ adapter → k ∉ AppendListFields ∧ k ∉ ExtendDictFields) →
    b < σ.length →
    readObj (heapGp adapter fqn models σ).store b = readObj σ b := by
  intro adapter fqn models σ b hdisj hb
  have hinitLow : readObj (heapGpInitStore σ) b = readObj σ b :=
    allocManyStore_low gpInitObjs σ b hb
  have hav : ∀ key a, (key ∈ AppendListFields ∨ key ∈ ExtendDictFields) →
      alookupH (heapGpInitCfg σ) key = some (.href a) → ¬ a = b := by
    intro key a _ hlk he
    have hge := allocManyDict_fresh gpInitObjs σ key a hlk
    omega
  unfold heapGp
  by_cases hn : isNoneH models = true
  · rw [if_pos hn]
    exact hinitLow
  · rw [if_neg hn]
    have hsuLow := heapSmartUpdate_low adapter (heapGpInitStore σ) (heapGpInitCfg σ)
      models b hav
    cases hsu : heapSmartUpdate adapter (heapGpInitStore σ) (heapGpInitCfg σ) models with
    | perr σ1 =>
      rw [hsu] at hsuLow
      exact hsuLow.trans hinitLow
    | cerr f σ1 =>
      rw [hsu] at hsuLow
      exact hsuLow.trans hinitLow
    | ill σ1 =>
      rw [hsu] at hsuLow
      exact hsuLow.trans hinitLow
    | ok σ1 config1 relevant =>
      rw [hsu] at hsuLow
      have hce := heapSmartUpdate_ok_lookupAE hdisj hsu
      exact (heapGpLoop_low fqn adapter σ1 config1 models b hdisj
        (fun key a hk hlk => hav key a hk (by rw [← hce key hk]; exact hlk))).trans
        (hsuLow.trans hinitLow)

/-- Witness for the amended C9 at concrete inputs: with the adapter-specific
key sort — disjoint from the append and dict-union fields — the same lookup
that mutated the tree in the counterexample leaves the tree's list object at
address 1 exactly as it was. -/
theorem spec_C9_witness :
    readObj (heapGp ["sort"] ["child"] (.href 0) c9Store).store 1 = readObj c9Store 1 ∧
    readObj c9Store 1 = some (.hlist [.hstr "a"]) := by
  refine ⟨spec_C9_amended ["sort"] ["child"] (.href 0) c9Store 1 ?_ (by decide), rfl⟩
  intro k hk
  have hks : k = "sort" := by simpa using hk
  subst hks
  exact ⟨by decide, by decide⟩

/-- C10: get_project_config's initialization guarantees the implicit
precondition of smart_update — an entry holding a sequence for every append
field and an entry holding a mapping for every dict-union field — and under
that precondition smart_update applied to a mapping contribution never ends
in an uncaught error: the only error it can raise is the dict-union compiler
error, and no missing-key failure is reachable. -/
theorem spec_C10 :
    (∀ k, k ∈ AppendListFields → alookup gpInit k = some (.vlist [])) ∧
    (∀ k, k ∈ ExtendDictFields → alookup gpInit k = some (.vdict [])) ∧
    (∀ (adapter : List String) (mc nc : Dict),
        (∀ j, j ∈ AppendListFields → ∃ lj, alookup mc j = some (.vlist lj)) →
        (∀ j, j ∈ ExtendDictFields → ∃ dj, alookup mc j = some (.vdict dj)) →
        smart_update adapter mc (.vdict nc) ≠ .perr) := by
  refine ⟨fun k hk => alookup_gpInit_append hk, fun k hk => alookup_gpInit_extend hk, ?_⟩
  intro adapter mc nc happ hext hperr
  have hrel : relevantOf adapter (.vdict nc) = some (filterRecognized adapter nc) := rfl
  obtain ⟨mc1, hap⟩ :=
    appendPhase_ok_of_lists AppendListFields mc (filterRecognized adapter nc) happ
  have hinv1 : ∀ j, j ∈ ExtendDictFields → ∃ dj, alookup mc1 j = some (.vdict dj) := by
    intro j hj
    rw [appendPhase_lookup_other _ _ _ _ _ hap (extend_not_append hj)]
    exact hext j hj
  have hdp := dictPhase_ne_perr ExtendDictFields mc1 (filterRecognized adapter nc) hinv1
  simp only [smart_update, hrel, hap] at hperr
  cases hd : dictPhase mc1 (filterRecognized adapter nc) ExtendDictFields <;> rw [hd] at hperr
  · simp at hperr
  · simp at hperr
  · exact hdp hd
  · simp at hperr

/-- Witness for C10 at concrete inputs: the initial accumulator holds the
empty sequence under tags and the empty mapping under vars, and smart_update
on it with a non-mapping vars contribution does not end in an uncaught
error (it raises the compiler error instead). -/
theorem spec_C10_witness :
    alookup gpInit "tags" = some (.vlist []) ∧
    alookup gpInit "vars" = some (.vdict []) ∧
    smart_update [] gpInit (.vdict [("vars", .vbool true)]) ≠ .perr := by
  refine ⟨spec_C10.1 "tags" (by decide), spec_C10.2.1 "vars" (by decide), ?_⟩
  exact spec_C10.2.2 [] gpInit [("vars", .vbool true)]
    (fun j hj => ⟨[], alookup_gpInit_append hj⟩)
    (fun j hj => ⟨[], alookup_gpInit_extend hj⟩)
